import Mathlib

/-!
Verification of the `clustering` function of `DispaSET/preprocessing/utils.py`.

The power-plant table is shallowly embedded: a row is a record of rational
numeric attributes and string categorical attributes, and the table carries the
list of column names actually present in the dataframe (`Table.cols`), since the
code repeatedly tests `key in plants` / `key in plants_merged.columns`.
Floating-point values are modelled by `ℚ`.  The three log-shaped fingerprint
boundary arrays are produced in the source by `_mylogspace`, which evaluates
`log10` over floats; those transcendental values have no exact rational
representation, so the boundary arrays for StartUpTime, MinUpTime and
MinDownTime are parameters (`LogBounds`) of the embedding, while the six
linearly spaced boundary arrays are computed exactly.
-/

set_option maxRecDepth 20000

namespace DispaSet

/-- One row of the plants dataframe.  All numeric columns that the `clustering`
function ever touches are present as fields; whether a column "exists" in the
dataframe is recorded separately in `Table.cols`.  Categorical columns hold
strings, with missing values already represented as the empty string (the code
applies `fillna('')` to them). -/
structure Row where
  Unit : String
  Zone : String
  Technology : String
  Fuel : String
  CHPType : String
  PowerCapacity : ℚ
  PartLoadMin : ℚ
  RampUpRate : ℚ
  RampDownRate : ℚ
  StartUpTime : ℚ
  MinUpTime : ℚ
  MinDownTime : ℚ
  NoLoadCost : ℚ
  StartUpCost : ℚ
  Efficiency : ℚ
  RampingCost : ℚ
  Nunits : ℚ
  MinEfficiency : ℚ
  STOCapacity : ℚ
  STOMaxChargingPower : ℚ
  STOChargingEfficiency : ℚ
  STOSelfDischarge : ℚ
  InitialPower : ℚ
  CO2Intensity : ℚ
  CHPPowerToHeat : ℚ
  CHPPowerLossFactor : ℚ
  deriving DecidableEq, Inhabited

/-- The plants dataframe: the list of column names present, and the rows. -/
structure Table where
  cols : List String
  rows : List Row
  deriving DecidableEq, Inhabited

/-- Configuration parameters of `clustering`: `Nslices`, `PartLoadMax`, `Pmax`. -/
structure Config where
  Nslices : ℕ
  PartLoadMax : ℚ
  Pmax : ℚ
  deriving DecidableEq, Inhabited

/-- The three log-shaped boundary arrays built by `_mylogspace` in the source
(for StartUpTime over `[0, 36]` and MinUpTime/MinDownTime over `[0, 168]`).
`_mylogspace` evaluates `np.log10` over floats, which is not exactly
representable over `ℚ`, so these arrays are parameters of the embedding. -/
structure LogBounds where
  startUpTime : List ℚ
  minUpTime : List ℚ
  minDownTime : List ℚ
  deriving DecidableEq, Inhabited

/-- Log/warning events emitted by `clustering` (the side channel of the code is
`logging`; only the events, not the message texts, are modelled). -/
inductive LogEvent where
  | warnStandardNunits
  | warnLPNunits
  | infoClustered
  | warnNoCluster
  deriving DecidableEq, Inhabited

/-- Fatal outcomes: `sys.exit(1)` on a missing required column or an
unrecognized method, and the uncaught Python exceptions that the code can raise
(`NameError` from the Integer-clustering rescale loop on an empty merged table,
`KeyError` from indexing a missing `RampingCost` column in the LP post-step). -/
inductive ClusterError where
  | missingColumn (c : String)
  | badMethod (m : String)
  | nameError
  | keyError
  deriving DecidableEq, Inhabited

/-- One cluster representative during the merge scan: the merged row, the
fingerprint recorded at creation (`fingerprints_merged`), and the ordered list
of original row indices absorbed so far (`map_plant_orig`). -/
structure ClusterRec where
  row : Row
  fp : List ℕ
  orig : List ℕ
  deriving DecidableEq, Inhabited

/-- The values threaded through the merge scan: the selected method string, the
configuration, the `OnlyOnes` flag and the dataframe columns. -/
structure Params where
  method : String
  cfg : Config
  onlyOnes : Bool
  cols : List String
  deriving DecidableEq, Inhabited

/-- The result of `clustering`: the merged table rows and the two-way mapping
(`NewIndex` / `FormerIndexes`, each a Python dict, modelled as an association
list in insertion order with overwrite-on-duplicate-key), plus the log events. -/
structure ClusterOutput where
  mergedRows : List Row
  newIndex : List (ℕ × String)
  formerIndexes : List (String × List ℕ)
  logs : List LogEvent
  deriving DecidableEq, Inhabited

/-- `np.linspace lo hi n` over `ℚ` (endpoints included; `n = 1` yields `[lo]`,
matching numpy, since division by zero is zero in `ℚ`). -/
def linspaceQ (lo hi : ℚ) (n : ℕ) : List ℚ :=
  (List.range n).map (fun k => lo + (hi - lo) * k / ((n : ℚ) - 1))

/-- Tail of `argmin`: current index, best index so far, best value so far. -/
def argminFrom : ℕ → ℕ → ℚ → List ℚ → ℕ
  | _, best, _, [] => best
  | i, best, bv, x :: xs =>
      if x < bv then argminFrom (i + 1) i x xs else argminFrom (i + 1) best bv xs

/-- `_find_nearest(array, value)`: index of the value of `array` nearest to
`value`; ties resolve to the lowest index (numpy `argmin` of `|array - value|`).
The source would raise on an empty array; the embedding returns `0` there (no
call site produces an empty array for a positive `Nslices`). -/
def find_nearest (arr : List ℚ) (v : ℚ) : ℕ :=
  match arr with
  | [] => 0
  | x :: xs => argminFrom 1 0 |x - v| xs

/-- The fingerprint of a plant: bin indices for the nine sliced attributes, in
the order of the source (PartLoadMin, RampUpRate, RampDownRate, StartUpTime,
MinUpTime, MinDownTime, NoLoadCost, StartUpCost, Efficiency). -/
def fingerprint (lb : LogBounds) (Nslices : ℕ) (r : Row) : List ℕ :=
  [find_nearest (linspaceQ 0 1 Nslices) r.PartLoadMin,
   find_nearest (linspaceQ 0 1 Nslices) r.RampUpRate,
   find_nearest (linspaceQ 0 1 Nslices) r.RampDownRate,
   find_nearest lb.startUpTime r.StartUpTime,
   find_nearest lb.minUpTime r.MinUpTime,
   find_nearest lb.minDownTime r.MinDownTime,
   find_nearest (linspaceQ 0 50 Nslices) r.NoLoadCost,
   find_nearest (linspaceQ 0 500 Nslices) r.StartUpCost,
   find_nearest (linspaceQ 0 1 Nslices) r.Efficiency]

/-- Capacity-weighted average used on merge:
`(old * P_old + new * P_add) / (P_add + P_old)`. -/
def wavg (oldv newv P_old P_add : ℚ) : ℚ :=
  (oldv * P_old + newv * P_add) / (P_add + P_old)

/-- `same_type`: categorical equality over Zone, Technology, Fuel, CHPType. -/
def sameType (r m : Row) : Bool :=
  r.Zone == m.Zone && r.Technology == m.Technology && r.Fuel == m.Fuel &&
    r.CHPType == m.CHPType

/-- `low_pmin`: the incoming unit's PartLoadMin is at most `PartLoadMax`. -/
def low_pmin (cfg : Config) (r : Row) : Bool :=
  decide (r.PartLoadMin ≤ cfg.PartLoadMax)

/-- `low_pmax`: the incoming unit's PowerCapacity is at most `Pmax`. -/
def low_pmax (cfg : Config) (r : Row) : Bool :=
  decide (r.PowerCapacity ≤ cfg.Pmax)

/-- `highly_flexible`: fast-ramping, fast-starting, short up/down times. -/
def highly_flexible (r : Row) : Bool :=
  decide (r.RampUpRate > 1 / 60) && decide (r.RampDownRate > 1 / 60) &&
    decide (r.StartUpTime < 1) && decide (r.MinDownTime ≤ 1) &&
    decide (r.MinUpTime ≤ 1)

/-- The fingerprint/threshold eligibility test of the merge condition:
`(same_fingerprint and low_pmin) or highly_flexible or low_pmax`, where
`fi` is the incoming unit's fingerprint and `fj` the representative's. -/
def eligibility (cfg : Config) (fi fj : List ℕ) (r : Row) : Bool :=
  (decide (fi = fj) && low_pmin cfg r) || highly_flexible r || low_pmax cfg r

/-- The merge action of the `Standard`/`MILP` branch: weighted averages, sums,
capacity-weighted minimum blends for PartLoadMin/StartUpTime, the RampingCost
start-up-cost conversion, and `Nunits := 1`.  `m` is the representative
(`plants_merged` row `j`), `p` the incoming plant (row `i`); each rule only
fires for columns present in the dataframe (`for key in plants_merged`). -/
def mergeStandard (cols : List String) (m p : Row) : Row :=
  let P_old := m.PowerCapacity
  let P_add := p.PowerCapacity
  { m with
    RampUpRate := if cols.contains "RampUpRate" then
      wavg m.RampUpRate p.RampUpRate P_old P_add else m.RampUpRate
    RampDownRate := if cols.contains "RampDownRate" then
      wavg m.RampDownRate p.RampDownRate P_old P_add else m.RampDownRate
    MinUpTime := if cols.contains "MinUpTime" then
      wavg m.MinUpTime p.MinUpTime P_old P_add else m.MinUpTime
    MinDownTime := if cols.contains "MinDownTime" then
      wavg m.MinDownTime p.MinDownTime P_old P_add else m.MinDownTime
    NoLoadCost := if cols.contains "NoLoadCost" then
      wavg m.NoLoadCost p.NoLoadCost P_old P_add else m.NoLoadCost
    Efficiency := if cols.contains "Efficiency" then
      wavg m.Efficiency p.Efficiency P_old P_add else m.Efficiency
    MinEfficiency := if cols.contains "MinEfficiency" then
      wavg m.MinEfficiency p.MinEfficiency P_old P_add else m.MinEfficiency
    STOChargingEfficiency := if cols.contains "STOChargingEfficiency" then
      wavg m.STOChargingEfficiency p.STOChargingEfficiency P_old P_add
      else m.STOChargingEfficiency
    CO2Intensity := if cols.contains "CO2Intensity" then
      wavg m.CO2Intensity p.CO2Intensity P_old P_add else m.CO2Intensity
    STOSelfDischarge := if cols.contains "STOSelfDischarge" then
      wavg m.STOSelfDischarge p.STOSelfDischarge P_old P_add
      else m.STOSelfDischarge
    CHPPowerToHeat := if cols.contains "CHPPowerToHeat" then
      wavg m.CHPPowerToHeat p.CHPPowerToHeat P_old P_add else m.CHPPowerToHeat
    CHPPowerLossFactor := if cols.contains "CHPPowerLossFactor" then
      wavg m.CHPPowerLossFactor p.CHPPowerLossFactor P_old P_add
      else m.CHPPowerLossFactor
    PowerCapacity := if cols.contains "PowerCapacity" then
      m.PowerCapacity + p.PowerCapacity else m.PowerCapacity
    STOCapacity := if cols.contains "STOCapacity" then
      m.STOCapacity + p.STOCapacity else m.STOCapacity
    STOMaxChargingPower := if cols.contains "STOMaxChargingPower" then
      m.STOMaxChargingPower + p.STOMaxChargingPower else m.STOMaxChargingPower
    InitialPower := if cols.contains "InitialPower" then
      m.InitialPower + p.InitialPower else m.InitialPower
    PartLoadMin := if cols.contains "PartLoadMin" then
      min (m.PartLoadMin * P_old) (p.PartLoadMin * P_add) / (P_add + P_old)
      else m.PartLoadMin
    StartUpTime := if cols.contains "StartUpTime" then
      min (m.StartUpTime * P_old) (p.StartUpTime * P_add) / (P_add + P_old)
      else m.StartUpTime
    RampingCost := if cols.contains "RampingCost" then
      (P_old * m.RampingCost +
        (P_add * (1 - p.PartLoadMin) * p.RampingCost + p.StartUpCost)) /
        (P_old + P_add)
      else m.RampingCost
    Nunits := if cols.contains "Nunits" then 1 else m.Nunits }

/-- The merge action of the `LP clustered` branch: like the Standard branch but
the weighted-average rule omits CHPPowerToHeat/CHPPowerLossFactor, and
PartLoadMin and StartUpTime are imposed to `0`. -/
def mergeLP (cols : List String) (m p : Row) : Row :=
  let P_old := m.PowerCapacity
  let P_add := p.PowerCapacity
  { m with
    RampUpRate := if cols.contains "RampUpRate" then
      wavg m.RampUpRate p.RampUpRate P_old P_add else m.RampUpRate
    RampDownRate := if cols.contains "RampDownRate" then
      wavg m.RampDownRate p.RampDownRate P_old P_add else m.RampDownRate
    MinUpTime := if cols.contains "MinUpTime" then
      wavg m.MinUpTime p.MinUpTime P_old P_add else m.MinUpTime
    MinDownTime := if cols.contains "MinDownTime" then
      wavg m.MinDownTime p.MinDownTime P_old P_add else m.MinDownTime
    NoLoadCost := if cols.contains "NoLoadCost" then
      wavg m.NoLoadCost p.NoLoadCost P_old P_add else m.NoLoadCost
    Efficiency := if cols.contains "Efficiency" then
      wavg m.Efficiency p.Efficiency P_old P_add else m.Efficiency
    MinEfficiency := if cols.contains "MinEfficiency" then
      wavg m.MinEfficiency p.MinEfficiency P_old P_add else m.MinEfficiency
    STOChargingEfficiency := if cols.contains "STOChargingEfficiency" then
      wavg m.STOChargingEfficiency p.STOChargingEfficiency P_old P_add
      else m.STOChargingEfficiency
    CO2Intensity := if cols.contains "CO2Intensity" then
      wavg m.CO2Intensity p.CO2Intensity P_old P_add else m.CO2Intensity
    STOSelfDischarge := if cols.contains "STOSelfDischarge" then
      wavg m.STOSelfDischarge p.STOSelfDischarge P_old P_add
      else m.STOSelfDischarge
    PowerCapacity := if cols.contains "PowerCapacity" then
      m.PowerCapacity + p.PowerCapacity else m.PowerCapacity
    STOCapacity := if cols.contains "STOCapacity" then
      m.STOCapacity + p.STOCapacity else m.STOCapacity
    STOMaxChargingPower := if cols.contains "STOMaxChargingPower" then
      m.STOMaxChargingPower + p.STOMaxChargingPower else m.STOMaxChargingPower
    InitialPower := if cols.contains "InitialPower" then
      m.InitialPower + p.InitialPower else m.InitialPower
    PartLoadMin := if cols.contains "PartLoadMin" then 0 else m.PartLoadMin
    StartUpTime := if cols.contains "StartUpTime" then 0 else m.StartUpTime
    RampingCost := if cols.contains "RampingCost" then
      (P_old * m.RampingCost +
        (P_add * (1 - p.PartLoadMin) * p.RampingCost + p.StartUpCost)) /
        (P_old + P_add)
      else m.RampingCost
    Nunits := if cols.contains "Nunits" then 1 else m.Nunits }

/-- The merge action of the `Integer clustering` branch: Nunits-weighted
averages over the listed keys, then `Nunits` accumulates by summation. -/
def mergeInteger (cols : List String) (m p : Row) : Row :=
  let W_old := m.Nunits
  let W_add := p.Nunits
  { m with
    PowerCapacity := if cols.contains "PowerCapacity" then
      wavg m.PowerCapacity p.PowerCapacity W_old W_add else m.PowerCapacity
    RampUpRate := if cols.contains "RampUpRate" then
      wavg m.RampUpRate p.RampUpRate W_old W_add else m.RampUpRate
    RampDownRate := if cols.contains "RampDownRate" then
      wavg m.RampDownRate p.RampDownRate W_old W_add else m.RampDownRate
    MinUpTime := if cols.contains "MinUpTime" then
      wavg m.MinUpTime p.MinUpTime W_old W_add else m.MinUpTime
    MinDownTime := if cols.contains "MinDownTime" then
      wavg m.MinDownTime p.MinDownTime W_old W_add else m.MinDownTime
    NoLoadCost := if cols.contains "NoLoadCost" then
      wavg m.NoLoadCost p.NoLoadCost W_old W_add else m.NoLoadCost
    Efficiency := if cols.contains "Efficiency" then
      wavg m.Efficiency p.Efficiency W_old W_add else m.Efficiency
    MinEfficiency := if cols.contains "MinEfficiency" then
      wavg m.MinEfficiency p.MinEfficiency W_old W_add else m.MinEfficiency
    STOChargingEfficiency := if cols.contains "STOChargingEfficiency" then
      wavg m.STOChargingEfficiency p.STOChargingEfficiency W_old W_add
      else m.STOChargingEfficiency
    CO2Intensity := if cols.contains "CO2Intensity" then
      wavg m.CO2Intensity p.CO2Intensity W_old W_add else m.CO2Intensity
    STOSelfDischarge := if cols.contains "STOSelfDischarge" then
      wavg m.STOSelfDischarge p.STOSelfDischarge W_old W_add
      else m.STOSelfDischarge
    STOCapacity := if cols.contains "STOCapacity" then
      wavg m.STOCapacity p.STOCapacity W_old W_add else m.STOCapacity
    STOMaxChargingPower := if cols.contains "STOMaxChargingPower" then
      wavg m.STOMaxChargingPower p.STOMaxChargingPower W_old W_add
      else m.STOMaxChargingPower
    InitialPower := if cols.contains "InitialPower" then
      wavg m.InitialPower p.InitialPower W_old W_add else m.InitialPower
    PartLoadMin := if cols.contains "PartLoadMin" then
      wavg m.PartLoadMin p.PartLoadMin W_old W_add else m.PartLoadMin
    StartUpTime := if cols.contains "StartUpTime" then
      wavg m.StartUpTime p.StartUpTime W_old W_add else m.StartUpTime
    RampingCost := if cols.contains "RampingCost" then
      wavg m.RampingCost p.RampingCost W_old W_add else m.RampingCost
    Nunits := m.Nunits + p.Nunits }

/-- One pass of the inner `for j in plants_merged.index` loop for plant `i`
with fingerprint `f`: test the cluster representatives in creation order and
merge into the first eligible one (returning the updated representative list),
or return `none` if no representative matches. -/
def scanMerge (P : Params) (i : ℕ) (r : Row) (f : List ℕ) :
    List ClusterRec → Option (List ClusterRec)
  | [] => none
  | c :: rest =>
    let st := sameType r c.row
    let cl := P.onlyOnes && st && eligibility P.cfg f c.fp r
    if (P.method == "Standard" || P.method == "MILP") && cl then
      some ({ row := mergeStandard P.cols c.row r, fp := c.fp,
              orig := c.orig ++ [i] } :: rest)
    else if P.method == "LP clustered" && st && P.onlyOnes then
      some ({ row := mergeLP P.cols c.row r, fp := c.fp,
              orig := c.orig ++ [i] } :: rest)
    else if P.method == "Integer clustering" && st then
      some ({ row := mergeInteger P.cols c.row r, fp := c.fp,
              orig := c.orig ++ [i] } :: rest)
    else
      match scanMerge P i r f rest with
      | some rest2 => some (c :: rest2)
      | none => none

/-- The outer `for i in plants.index` loop: greedy left-to-right processing of
the (row, fingerprint) pairs, starting at index `i`, growing the cluster list;
a plant that merges nowhere becomes a new representative with `orig = [i]`. -/
def clusterLoop (P : Params) : ℕ → List (Row × List ℕ) → List ClusterRec →
    List ClusterRec
  | _, [], st => st
  | i, (r, f) :: rest, st =>
      match scanMerge P i r f st with
      | some st2 => clusterLoop P (i + 1) rest st2
      | none => clusterLoop P (i + 1) rest (st ++ [{ row := r, fp := f, orig := [i] }])

/-- Modelled from the spec: `clean_strings` (imported from the `str_handler`
module, which is not among the sources) strips characters unsafe as an
optimization-model symbol.  The spec does not enumerate the character set and
no claim depends on it, so it is modelled as the identity map. -/
def clean_strings (s : String) : String := s

/-- Modelled from the spec: `shrink_to_64` (imported from the `str_handler`
module, which is not among the sources) truncates to a 64-character maximum. -/
def shrink_to_64 (s : String) : String := ⟨s.data.take 64⟩

/-- Python's `str.rstrip()`: remove trailing whitespace. -/
def rstrip (s : String) : String :=
  ⟨(s.data.reverse.dropWhile Char.isWhitespace).reverse⟩

/-- Python's `str` of a list of ints, e.g. `"[0, 1]"`. -/
def pyListStr (l : List ℕ) : String :=
  "[" ++ String.intercalate ", " (l.map toString) ++ "]"

/-- The new unit name of a finalized cluster: for a cluster that absorbed a
single plant, `str(indices) + ' - ' + Unit`; otherwise `str(indices)` followed
by `' - ' + value` for each of Zone, Technology, Fuel, CHPType; both sanitized
(`shrink_to_64(clean_strings(...))`) and right-stripped. -/
def clusterName (c : ClusterRec) : String :=
  if c.orig.length == 1 then
    rstrip (shrink_to_64 (clean_strings (pyListStr c.orig ++ " - " ++ c.row.Unit)))
  else
    rstrip (shrink_to_64 (clean_strings
      (pyListStr c.orig ++ " - " ++ c.row.Zone ++ " - " ++ c.row.Technology ++
        " - " ++ c.row.Fuel ++ " - " ++ c.row.CHPType)))

/-- Python dict assignment `d[k] = v` on an insertion-ordered association list:
overwrite the value if the key exists, else append the pair. -/
def dinsert {α β : Type} [DecidableEq α] (k : α) (v : β) :
    List (α × β) → List (α × β)
  | [] => [(k, v)]
  | (k2, v2) :: rest =>
      if k = k2 then (k, v) :: rest else (k2, v2) :: dinsert k v rest

/-- Python dict lookup `d[k]` on the association-list model. -/
def alookup {α β : Type} [DecidableEq α] : List (α × β) → α → Option β
  | [], _ => none
  | (k, v) :: rest, a => if a = k then some v else alookup rest a

/-- The `FormerIndexes` dict: for each finalized cluster in order,
`FormerIndexes[NewName] = map_plant_orig[j]`. -/
def buildFormer (cs : List ClusterRec) : List (String × List ℕ) :=
  cs.foldl (fun d c => dinsert (clusterName c) c.orig d) []

/-- The `NewIndex` dict: `NewIndex[oldplant] = NewName` for every original
index of every finalized cluster (the single-member branch of the source writes
the one entry `map_plant_orig[j][0]`, which is the same assignment). -/
def buildNew (cs : List ClusterRec) : List (ℕ × String) :=
  cs.foldl (fun d c => c.orig.foldl (fun d2 i => dinsert i (clusterName c) d2) d) []

/-- The renaming loop `plants_merged.loc[j,'Unit'] = NewName`. -/
def renameRows (cs : List ClusterRec) : List Row :=
  cs.map (fun c => { c.row with Unit := clusterName c })

/-- The post-finalization fix of the `LP clustered` branch for a single row:
a row whose RampingCost is exactly zero gets
`RampingCost := StartUpCost / PowerCapacity` (division by zero is total over
`ℚ`; see `lpRampFixChecked` for the error-explicit variant). -/
def lpRampFix (r : Row) : Row :=
  if r.RampingCost = 0 then
    { r with RampingCost := r.StartUpCost / r.PowerCapacity }
  else r

/-- Error-checked variant of `lpRampFix` making the definedness of the division
explicit: `none` exactly when the unguarded division has a zero divisor. -/
def lpRampFixChecked (r : Row) : Option Row :=
  if r.RampingCost = 0 then
    if r.PowerCapacity = 0 then none
    else some { r with RampingCost := r.StartUpCost / r.PowerCapacity }
  else some r

/-- numpy `np.round`: round half to even. -/
def roundHalfEven (q : ℚ) : ℤ :=
  if q - q.floor < 1 / 2 then q.floor
  else if q - q.floor > 1 / 2 then q.floor + 1
  else if q.floor % 2 = 0 then q.floor else q.floor + 1

/-- The rescale applied by the Integer-clustering post-step to the single row
`idx` that the dedented loop retains (the last row): rescale the listed keys by
`N / Nunits` with `N = round(Nunits)`, then set `Nunits := N`. -/
def integerTransform (cols : List String) (l : Row) : Row :=
  let N : ℚ := (roundHalfEven l.Nunits : ℤ)
  { l with
    PowerCapacity := if cols.contains "PowerCapacity" then
      l.PowerCapacity * N / l.Nunits else l.PowerCapacity
    STOCapacity := if cols.contains "STOCapacity" then
      l.STOCapacity * N / l.Nunits else l.STOCapacity
    STOMaxChargingPower := if cols.contains "STOMaxChargingPower" then
      l.STOMaxChargingPower * N / l.Nunits else l.STOMaxChargingPower
    InitialPower := if cols.contains "InitialPower" then
      l.InitialPower * N / l.Nunits else l.InitialPower
    NoLoadCost := if cols.contains "NoLoadCost" then
      l.NoLoadCost * N / l.Nunits else l.NoLoadCost
    Nunits := N }

/-- The Integer-clustering post-step.  In the source the `for idx` loop that
computes `N = np.round(...)` ends after one statement (the rescale loop below it
is dedented), so after the loop `idx` is the *last* index and only that row is
rescaled and rounded; on an empty merged table the dedented code raises
`NameError` because `idx` was never bound. -/
def integerPost (cols : List String) (rows : List Row) :
    Except ClusterError (List Row) :=
  match rows.getLast? with
  | none => .error .nameError
  | some l => .ok (rows.dropLast ++ [integerTransform cols l])

/-- The per-method post-finalization of `clustering`: the `LP clustered`
RampingCost derivation (raising `KeyError` if the RampingCost column is absent,
as the unguarded `plants_merged['RampingCost'][i]` would), the Integer
clustering rounding/rescale, and the identity for the other methods. -/
def clusteringPost (method : String) (cols : List String) (rows : List Row) :
    Except ClusterError (List Row) :=
  if method == "LP clustered" then
    if cols.contains "RampingCost" then .ok (rows.map lpRampFix)
    else .error .keyError
  else if method == "Integer clustering" then integerPost cols rows
  else .ok rows

/-- The `required_inputs` list of the source, in order ('Unit' first). -/
def requiredInputs : List String :=
  ["Unit", "PowerCapacity", "PartLoadMin", "RampUpRate", "RampDownRate",
   "StartUpTime", "MinUpTime", "MinDownTime", "NoLoadCost", "StartUpCost",
   "Efficiency"]

/-- The first required column missing from the dataframe, if any (the source
exits at the first missing one). -/
def firstMissing (cols : List String) : Option String :=
  requiredInputs.find? (fun c => !cols.contains c)

/-- `if not "Nunits" in plants: plants['Nunits'] = 1`. -/
def defaultNunits (t : Table) : Table :=
  if t.cols.contains "Nunits" then t
  else ⟨t.cols ++ ["Nunits"], t.rows.map (fun r => { r with Nunits := 1 })⟩

/-- The destructive pre-expansion of the `LP clustered` method for one row:
multiply the capacity-like keys that are present by `Nunits`, then reset
`Nunits` to 1. -/
def lpExpandRow (cols : List String) (r : Row) : Row :=
  { r with
    PowerCapacity := if cols.contains "PowerCapacity" then
      r.Nunits * r.PowerCapacity else r.PowerCapacity
    STOCapacity := if cols.contains "STOCapacity" then
      r.Nunits * r.STOCapacity else r.STOCapacity
    STOMaxChargingPower := if cols.contains "STOMaxChargingPower" then
      r.Nunits * r.STOMaxChargingPower else r.STOMaxChargingPower
    InitialPower := if cols.contains "InitialPower" then
      r.Nunits * r.InitialPower else r.InitialPower
    Nunits := 1 }

/-- The pre-expansion applied to the whole table. -/
def lpExpand (cols : List String) (rows : List Row) : List Row :=
  rows.map (lpExpandRow cols)

/-- The method-validity check and Nunits handling of the source (lines
166-187): returns the possibly pre-expanded rows, the final `OnlyOnes` flag and
the warnings logged; fatal on an unrecognized method string. -/
def methodDispatch (method : String) (cols : List String) (rows : List Row)
    (onlyOnes : Bool) : Except ClusterError (List Row × Bool × List LogEvent) :=
  if method == "Standard" || method == "MILP" then
    .ok (rows, onlyOnes, if onlyOnes then [] else [.warnStandardNunits])
  else if method == "LP clustered" then
    if onlyOnes then .ok (rows, onlyOnes, [])
    else .ok (lpExpand cols rows, true, [.warnLPNunits])
  else if method == "LP" || method == "Integer clustering" ||
      method == "No clustering" then
    .ok (rows, onlyOnes, [])
  else .error (.badMethod method)

/-- Bundle the values threaded through the merge scan. -/
def mkParams (method : String) (cfg : Config) (onlyOnes : Bool)
    (cols : List String) : Params :=
  { method := method, cfg := cfg, onlyOnes := onlyOnes, cols := cols }

/-- Input validation and preprocessing of `clustering`: the required-column
check (fatal at the first missing column), the Nunits default, the `OnlyOnes`
computation and the method dispatch.  Returns the dataframe columns, the
working rows, the `OnlyOnes` flag and the warnings. -/
def clusteringStage1 (tbl : Table) (method : String) :
    Except ClusterError (List String × List Row × Bool × List LogEvent) :=
  match firstMissing tbl.cols with
  | some c => .error (.missingColumn c)
  | none =>
      let t := defaultNunits tbl
      let onlyOnes := t.rows.all (fun r => decide (r.Nunits = 1))
      match methodDispatch method t.cols t.rows onlyOnes with
      | .error e => .error e
      | .ok (rows, oo, logs) => .ok (t.cols, rows, oo, logs)

/-- Fingerprinting plus the greedy merge scan: the cluster-representative list
produced by the main loop of `clustering`, with the columns and warnings. -/
def clusteringClusters (lb : LogBounds) (cfg : Config) (tbl : Table)
    (method : String) :
    Except ClusterError (List ClusterRec × List String × List LogEvent) :=
  match clusteringStage1 tbl method with
  | .error e => .error e
  | .ok (cols, rows, oo, logs) =>
      let fps := rows.map (fingerprint lb cfg.Nslices)
      .ok (clusterLoop (mkParams method cfg oo cols) 0 (rows.zip fps) [], cols, logs)

/-- Name resolution, mapping construction, post-finalization and the final
info/warning log, applied to the cluster-representative list. -/
def finishClustering (tbl : Table) (method : String) (cs : List ClusterRec)
    (cols : List String) (logs : List LogEvent) :
    Except ClusterError ClusterOutput :=
  match clusteringPost method cols (renameRows cs) with
  | .error e => .error e
  | .ok finalRows =>
      .ok { mergedRows := finalRows, newIndex := buildNew cs,
            formerIndexes := buildFormer cs,
            logs := logs ++ (if tbl.rows.length == cs.length then
              [.warnNoCluster] else [.infoClustered]) }

/-- The full `clustering` function: validation and preprocessing, the greedy
merge scan, name resolution and mapping construction, the per-method
post-finalization, and the final info/warning log about the row-count
reduction. -/
def clustering (lb : LogBounds) (cfg : Config) (tbl : Table) (method : String) :
    Except ClusterError ClusterOutput :=
  match clusteringClusters lb cfg tbl method with
  | .error e => .error e
  | .ok (cs, cols, logs) => finishClustering tbl method cs cols logs

/-- Sum of PowerCapacity over a list of rows. -/
def capSum (rows : List Row) : ℚ :=
  (rows.map (fun r => r.PowerCapacity)).sum

/-- Sum of PowerCapacity over the cluster representatives. -/
def capSumC (st : List ClusterRec) : ℚ :=
  (st.map (fun c => c.row.PowerCapacity)).sum

/-- Concatenation of the original-index lists of the representatives. -/
def origsJoin (st : List ClusterRec) : List ℕ :=
  (st.map (fun c => c.orig)).flatten

/-- The indices `[i, i+1, ..., i+n-1]`. -/
def idxFrom : ℕ → ℕ → List ℕ
  | _, 0 => []
  | i, n + 1 => i :: idxFrom (i + 1) n

/-- A row with the Unit name blanked, to compare rows up to the bookkeeping
rename of the Unit column. -/
def stripUnit (r : Row) : Row := { r with Unit := "" }

/-- The merged rows of a successful run (empty list on a fatal run). -/
def mergedOf (lb : LogBounds) (cfg : Config) (tbl : Table) (method : String) :
    List Row :=
  ((clustering lb cfg tbl method).toOption.map (fun o => o.mergedRows)).getD []

/-- The `NewIndex` mapping of a successful run. -/
def newIndexOf (lb : LogBounds) (cfg : Config) (tbl : Table) (method : String) :
    List (ℕ × String) :=
  ((clustering lb cfg tbl method).toOption.map (fun o => o.newIndex)).getD []

/-- The `FormerIndexes` mapping of a successful run. -/
def formerOf (lb : LogBounds) (cfg : Config) (tbl : Table) (method : String) :
    List (String × List ℕ) :=
  ((clustering lb cfg tbl method).toOption.map (fun o => o.formerIndexes)).getD []

/-- The log events of a successful run. -/
def logsOf (lb : LogBounds) (cfg : Config) (tbl : Table) (method : String) :
    List LogEvent :=
  ((clustering lb cfg tbl method).toOption.map (fun o => o.logs)).getD []

/-- Whether the run completes without a fatal error. -/
def runOk (lb : LogBounds) (cfg : Config) (tbl : Table) (method : String) :
    Bool :=
  (clustering lb cfg tbl method).isOk

/-- Whether the derived cluster names of a run are pairwise distinct (they
always are in practice: each name starts with the bracketed list of absorbed
original indices, and those lists are pairwise distinct). -/
def namesNodup (lb : LogBounds) (cfg : Config) (tbl : Table) (method : String) :
    Bool :=
  match clusteringClusters lb cfg tbl method with
  | .ok (cs, _, _) => decide ((cs.map clusterName).Nodup)
  | .error _ => false

/-- The singleton cluster records produced by a run in which no unit ever
merges: the k-th plant becomes its own representative with `orig = [i + k]`. -/
def singles : ℕ → List (Row × List ℕ) → List ClusterRec
  | _, [] => []
  | i, (r, f) :: rest => { row := r, fp := f, orig := [i] } :: singles (i + 1) rest

/-- The `NewIndex` entries of a cluster list, in plain concatenated form
(equal to `buildNew` when no two original indices collide). -/
def newPairs (cs : List ClusterRec) : List (ℕ × String) :=
  cs.flatMap (fun c => c.orig.map (fun i => (i, clusterName c)))

/-- The ten required columns that the spec enumerates (the source additionally
requires 'Unit'). -/
def specTenCols : List String :=
  ["PowerCapacity", "PartLoadMin", "RampUpRate", "RampDownRate", "StartUpTime",
   "MinUpTime", "MinDownTime", "NoLoadCost", "StartUpCost", "Efficiency"]

/-- Concrete log-shaped boundary arrays for the closed test runs. -/
def lb0 : LogBounds := ⟨[0, 1], [0, 1], [0, 1]⟩

/-- Concrete configuration for the closed test runs: 2 slices and the default
thresholds `PartLoadMax = 0.1`, `Pmax = 30`. -/
def cfg0 : Config := ⟨2, 1 / 10, 30⟩

/-- All column names used by the embedding, as a fully populated dataframe. -/
def fullCols : List String :=
  ["Unit", "PowerCapacity", "PartLoadMin", "RampUpRate", "RampDownRate",
   "StartUpTime", "MinUpTime", "MinDownTime", "NoLoadCost", "StartUpCost",
   "Efficiency", "RampingCost", "Nunits", "Zone", "Technology", "Fuel",
   "CHPType", "STOCapacity", "STOMaxChargingPower", "InitialPower",
   "MinEfficiency", "STOChargingEfficiency", "CO2Intensity",
   "STOSelfDischarge", "CHPPowerToHeat", "CHPPowerLossFactor"]

/-- A concrete plant row used by the closed test runs. -/
def baseRow : Row :=
  { Unit := "u0", Zone := "Z1", Technology := "T1", Fuel := "F1", CHPType := "",
    PowerCapacity := 10, PartLoadMin := 0, RampUpRate := 0, RampDownRate := 0,
    StartUpTime := 5, MinUpTime := 5, MinDownTime := 5, NoLoadCost := 5,
    StartUpCost := 100, Efficiency := 1 / 2, RampingCost := 0, Nunits := 1,
    MinEfficiency := 0, STOCapacity := 0, STOMaxChargingPower := 0,
    STOChargingEfficiency := 0, STOSelfDischarge := 0, InitialPower := 0,
    CO2Intensity := 0, CHPPowerToHeat := 0, CHPPowerLossFactor := 0 }

/-- A row failing every part of the eligibility test except the fingerprint
equality: PartLoadMin 0.9 > PartLoadMax, PowerCapacity 100 > Pmax, not
highly flexible. -/
def rowHiPmin : Row := { baseRow with PartLoadMin := 9 / 10, PowerCapacity := 100 }

/-- A second plant identical to `rowHiPmin` except for its Unit name. -/
def rowHiPmin2 : Row := { rowHiPmin with Unit := "u1" }

/-- Two same-type plants that fail the fingerprint/threshold eligibility. -/
def tblC1 : Table := ⟨fullCols, [rowHiPmin, rowHiPmin2]⟩

/-- Two same-type plants with capacities 10 and 20. -/
def tblC2 : Table := ⟨fullCols, [baseRow, { baseRow with Unit := "u1", PowerCapacity := 20 }]⟩

/-- A single plant with `Nunits = 2`. -/
def tblC5 : Table := ⟨fullCols, [{ baseRow with Nunits := 2 }]⟩

/-- Two identical (hence mergeable under Standard) plants. -/
def tblTwoMerge : Table := ⟨fullCols, [baseRow, { baseRow with Unit := "u1" }]⟩

/-- A plant row with `Nunits = 3` and `PowerCapacity = 10`. -/
def rowC7 : Row := { baseRow with Nunits := 3 }

/-- A single plant with `Nunits = 3` and `PowerCapacity = 10`. -/
def tblC7 : Table := ⟨fullCols, [rowC7]⟩

/-- Two plants of different types (different Zone). -/
def tblC8 : Table := ⟨fullCols, [baseRow, { baseRow with Unit := "u1", Zone := "Z2" }]⟩

/-- A table with exactly the ten spec-required columns and no 'Unit' column. -/
def tblC9 : Table := ⟨specTenCols, []⟩

/-- The last row fed to the Integer-clustering post-step in the closed test
run; it carries the fractional `Nunits = 5/2`. -/
def rowC4last : Row := { baseRow with Unit := "u1", Nunits := 5 / 2 }

/-- Rows fed to the Integer-clustering post-step in the closed test run. -/
def rowsC4 : List Row := [baseRow, rowC4last]

theorem contains_true_iff (cols : List String) (c : String) :
    cols.contains c = true ↔ c ∈ cols := by
  simp

theorem firstMissing_none (cols : List String) (h : firstMissing cols = none) :
    ∀ c ∈ requiredInputs, cols.contains c = true := by
  intro c hc
  have := List.find?_eq_none.mp h c hc
  simpa using this

theorem origsJoin_cons (c : ClusterRec) (st : List ClusterRec) :
    origsJoin (c :: st) = c.orig ++ origsJoin st := rfl

theorem origsJoin_append (a b : List ClusterRec) :
    origsJoin (a ++ b) = origsJoin a ++ origsJoin b := by
  simp [origsJoin]

theorem capSumC_cons (c : ClusterRec) (st : List ClusterRec) :
    capSumC (c :: st) = c.row.PowerCapacity + capSumC st := by
  simp [capSumC]

theorem capSumC_append (a b : List ClusterRec) :
    capSumC (a ++ b) = capSumC a + capSumC b := by
  simp [capSumC]

theorem mergeStandard_cap (cols : List String) (m p : Row)
    (h : cols.contains "PowerCapacity" = true) :
    (mergeStandard cols m p).PowerCapacity = m.PowerCapacity + p.PowerCapacity := by
  simp only [mergeStandard]
  rw [if_pos h]

theorem mergeLP_cap (cols : List String) (m p : Row)
    (h : cols.contains "PowerCapacity" = true) :
    (mergeLP cols m p).PowerCapacity = m.PowerCapacity + p.PowerCapacity := by
  simp only [mergeLP]
  rw [if_pos h]

theorem append_singleton_perm (o J : List ℕ) (i : ℕ) :
    List.Perm ((o ++ [i]) ++ J) ((o ++ J) ++ [i]) := by
  rw [List.append_assoc, List.append_assoc]
  exact ((List.perm_append_singleton i J).symm).append_left o

theorem scanMerge_origs (P : Params) (i : ℕ) (r : Row) (f : List ℕ) :
    ∀ st st2, scanMerge P i r f st = some st2 →
      List.Perm (origsJoin st2) (origsJoin st ++ [i]) := by
  intro st
  induction st with
  | nil => intro st2 h; simp [scanMerge] at h
  | cons c rest ih =>
      intro st2 h
      simp only [scanMerge] at h
      split at h
      · cases h
        simpa [origsJoin_cons] using append_singleton_perm c.orig (origsJoin rest) i
      · split at h
        · cases h
          simpa [origsJoin_cons] using append_singleton_perm c.orig (origsJoin rest) i
        · split at h
          · cases h
            simpa [origsJoin_cons] using append_singleton_perm c.orig (origsJoin rest) i
          · cases hrec : scanMerge P i r f rest with
            | none => rw [hrec] at h; cases h
            | some rest2 =>
                rw [hrec] at h
                cases h
                have h2 := ih rest2 hrec
                rw [origsJoin_cons, origsJoin_cons, List.append_assoc]
                exact h2.append_left c.orig

theorem clusterLoop_origs (P : Params) :
    ∀ (l : List (Row × List ℕ)) (i : ℕ) (st : List ClusterRec),
      List.Perm (origsJoin (clusterLoop P i l st))
        (origsJoin st ++ idxFrom i l.length) := by
  intro l
  induction l with
  | nil => intro i st; simp [clusterLoop, idxFrom]
  | cons p rest ih =>
      intro i st
      obtain ⟨r, f⟩ := p
      simp only [clusterLoop]
      cases hs : scanMerge P i r f st with
      | some st2 =>
          have h1 := (scanMerge_origs P i r f st st2 hs).append_right
            (idxFrom (i + 1) rest.length)
          have h2 := ih (i + 1) st2
          have h3 : List.Perm (origsJoin (clusterLoop P (i + 1) rest st2))
              ((origsJoin st ++ [i]) ++ idxFrom (i + 1) rest.length) :=
            h2.trans h1
          rw [List.append_assoc] at h3
          exact h3
      | none =>
          have h2 := ih (i + 1) (st ++ [{ row := r, fp := f, orig := [i] }])
          have h4 : origsJoin (st ++ [{ row := r, fp := f, orig := [i] }]) =
              origsJoin st ++ [i] := by
            rw [origsJoin_append]; simp [origsJoin]
          rw [h4, List.append_assoc] at h2
          exact h2

theorem idxFrom_mem (n : ℕ) : ∀ (i x : ℕ), x ∈ idxFrom i n ↔ i ≤ x ∧ x < i + n := by
  induction n with
  | zero =>
      intro i x
      simp only [idxFrom, List.not_mem_nil, false_iff]
      omega
  | succ m ih =>
      intro i x
      simp only [idxFrom, List.mem_cons, ih (i + 1)]
      omega

theorem idxFrom_nodup (n : ℕ) : ∀ i : ℕ, (idxFrom i n).Nodup := by
  induction n with
  | zero => intro i; simp [idxFrom]
  | succ m ih =>
      intro i
      simp only [idxFrom]
      refine List.nodup_cons.mpr ⟨?_, ih (i + 1)⟩
      intro hmem
      have h2 := (idxFrom_mem m (i + 1) i).mp hmem
      omega

theorem scanMerge_cap (P : Params) (i : ℕ) (r : Row) (f : List ℕ)
    (hm : (P.method == "Integer clustering") = false)
    (hpc : P.cols.contains "PowerCapacity" = true) :
    ∀ st st2, scanMerge P i r f st = some st2 →
      capSumC st2 = capSumC st + r.PowerCapacity := by
  intro st
  induction st with
  | nil => intro st2 h; simp [scanMerge] at h
  | cons c rest ih =>
      intro st2 h
      simp only [scanMerge] at h
      split at h
      · cases h
        rw [capSumC_cons, capSumC_cons, mergeStandard_cap _ _ _ hpc]
        ring
      · split at h
        · cases h
          rw [capSumC_cons, capSumC_cons, mergeLP_cap _ _ _ hpc]
          ring
        · split at h
          · rename_i hcond
            rw [hm] at hcond
            simp at hcond
          · cases hrec : scanMerge P i r f rest with
            | none => rw [hrec] at h; cases h
            | some rest2 =>
                rw [hrec] at h
                cases h
                rw [capSumC_cons, capSumC_cons, ih rest2 hrec]
                ring

theorem clusterLoop_cap (P : Params)
    (hm : (P.method == "Integer clustering") = false)
    (hpc : P.cols.contains "PowerCapacity" = true) :
    ∀ (l : List (Row × List ℕ)) (i : ℕ) (st : List ClusterRec),
      capSumC (clusterLoop P i l st) =
        capSumC st + (l.map (fun p => p.1.PowerCapacity)).sum := by
  intro l
  induction l with
  | nil => intro i st; simp [clusterLoop]
  | cons p rest ih =>
      intro i st
      obtain ⟨r, f⟩ := p
      simp only [clusterLoop]
      cases hs : scanMerge P i r f st with
      | some st2 =>
          rw [ih (i + 1) st2, scanMerge_cap P i r f hm hpc st st2 hs]
          simp only [List.map_cons, List.sum_cons]
          ring
      | none =>
          rw [ih (i + 1) _, capSumC_append]
          simp only [capSumC, List.map_cons, List.sum_cons, List.map_nil,
            List.sum_nil]
          ring

theorem scanMerge_eq_none (P : Params) (i : ℕ) (r : Row) (f : List ℕ)
    (h1 : P.onlyOnes = false ∨ ((P.method == "Standard") || (P.method == "MILP")) = false)
    (h2 : P.method ≠ "LP clustered" ∨ P.onlyOnes = false)
    (h3 : P.method ≠ "Integer clustering") :
    ∀ st, scanMerge P i r f st = none := by
  intro st
  induction st with
  | nil => rfl
  | cons c rest ih =>
      have h3b : (P.method == "Integer clustering") = false :=
        beq_eq_false_iff_ne.mpr h3
      rcases h1 with ha | ha
      · rcases h2 with hb | hb
        · simp [scanMerge, ih, ha, beq_eq_false_iff_ne.mpr hb, h3b]
        · simp [scanMerge, ih, ha, h3b]
      · rcases h2 with hb | hb
        · simp [scanMerge, ih, ha, beq_eq_false_iff_ne.mpr hb, h3b]
        · simp [scanMerge, ih, ha, hb, h3b]

theorem clusterLoop_of_none (P : Params)
    (hnone : ∀ i r f st, scanMerge P i r f st = none) :
    ∀ (l : List (Row × List ℕ)) (i : ℕ) (st : List ClusterRec),
      clusterLoop P i l st = st ++ singles i l := by
  intro l
  induction l with
  | nil => intro i st; simp [clusterLoop, singles]
  | cons p rest ih =>
      intro i st
      obtain ⟨r, f⟩ := p
      simp only [clusterLoop, hnone]
      rw [ih (i + 1)]
      simp [singles]

theorem singles_length (l : List (Row × List ℕ)) :
    ∀ i, (singles i l).length = l.length := by
  induction l with
  | nil => intro i; rfl
  | cons p rest ih =>
      intro i
      obtain ⟨r, f⟩ := p
      simp [singles, ih]

theorem renameRows_singles_stripUnit (pairs : List (Row × List ℕ)) :
    ∀ i k, stripUnit ((renameRows (singles i pairs)).getD k default)
      = stripUnit ((pairs.map Prod.fst).getD k default) := by
  induction pairs with
  | nil => intro i k; rfl
  | cons p rest ih =>
      intro i k
      obtain ⟨r, f⟩ := p
      cases k with
      | zero => simp [renameRows, singles, stripUnit]
      | succ k2 =>
          simpa [renameRows, singles] using ih (i + 1) k2

theorem dinsert_fresh {α β : Type} [DecidableEq α] (k : α) (v : β) :
    ∀ d : List (α × β), k ∉ d.map Prod.fst → dinsert k v d = d ++ [(k, v)] := by
  intro d
  induction d with
  | nil => intro; rfl
  | cons p rest ih =>
      intro h
      obtain ⟨k2, v2⟩ := p
      simp only [List.map_cons, List.mem_cons] at h
      push_neg at h
      simp only [dinsert]
      rw [if_neg h.1, ih h.2]
      simp

theorem foldl_dinsert {α β : Type} [DecidableEq α] :
    ∀ (l init : List (α × β)), ((init ++ l).map Prod.fst).Nodup →
      l.foldl (fun d p => dinsert p.1 p.2 d) init = init ++ l := by
  intro l
  induction l with
  | nil => intro init h; simp
  | cons p rest ih =>
      intro init h
      have hfresh : p.1 ∉ init.map Prod.fst := by
        rw [List.map_append, List.map_cons] at h
        have hd := (List.nodup_append.mp h).2.2
        intro hmem
        exact hd hmem (List.mem_cons_self _ _)
      simp only [List.foldl_cons]
      rw [dinsert_fresh p.1 p.2 init hfresh]
      have h2 : (((init ++ [p]) ++ rest).map Prod.fst).Nodup := by
        rw [List.append_assoc]
        simpa using h
      have := ih (init ++ [p]) h2
      rw [this, List.append_assoc]
      rfl

theorem buildFormer_eq (cs : List ClusterRec) (h : (cs.map clusterName).Nodup) :
    buildFormer cs = cs.map (fun c => (clusterName c, c.orig)) := by
  have h0 : buildFormer cs =
      (cs.map (fun c => (clusterName c, c.orig))).foldl
        (fun d p => dinsert p.1 p.2 d) [] := by
    rw [List.foldl_map]
    rfl
  rw [h0]
  have hkeys : (([] ++ cs.map (fun c => (clusterName c, c.orig))).map Prod.fst).Nodup := by
    simpa [List.map_map, Function.comp] using h
  rw [foldl_dinsert _ _ hkeys]
  simp

theorem newPairs_cons (c : ClusterRec) (rest : List ClusterRec) :
    newPairs (c :: rest) =
      c.orig.map (fun i => (i, clusterName c)) ++ newPairs rest := by
  simp [newPairs]

theorem inner_fold_eq (nm : String) :
    ∀ (o : List ℕ) (d : List (ℕ × String)),
      o.foldl (fun d2 i => dinsert i nm d2) d
        = (o.map (fun i => (i, nm))).foldl (fun d2 p => dinsert p.1 p.2 d2) d := by
  intro o
  induction o with
  | nil => intro d; rfl
  | cons x xs ih =>
      intro d
      simp only [List.foldl_cons, List.map_cons]
      exact ih _

theorem buildNew_go (cs : List ClusterRec) :
    ∀ d, cs.foldl
        (fun d2 c => c.orig.foldl (fun d3 i => dinsert i (clusterName c) d3) d2) d
      = (newPairs cs).foldl (fun d2 p => dinsert p.1 p.2 d2) d := by
  induction cs with
  | nil => intro d; rfl
  | cons c rest ih =>
      intro d
      rw [newPairs_cons, List.foldl_append, List.foldl_cons, inner_fold_eq]
      exact ih _

theorem newPairs_keys (cs : List ClusterRec) :
    (newPairs cs).map Prod.fst = origsJoin cs := by
  induction cs with
  | nil => rfl
  | cons c rest ih =>
      rw [newPairs_cons, List.map_append, ih, origsJoin_cons, List.map_map]
      congr 1
      exact List.map_id' c.orig

theorem buildNew_eq (cs : List ClusterRec) (h : (origsJoin cs).Nodup) :
    buildNew cs = newPairs cs := by
  have h0 : buildNew cs = (newPairs cs).foldl (fun d2 p => dinsert p.1 p.2 d2) [] :=
    buildNew_go cs []
  rw [h0]
  have hkeys : (([] ++ newPairs cs).map Prod.fst).Nodup := by
    simpa [newPairs_keys] using h
  rw [foldl_dinsert _ _ hkeys]
  simp

theorem alookup_eq_some_of_mem {α β : Type} [DecidableEq α] :
    ∀ (d : List (α × β)) (k : α) (v : β), (d.map Prod.fst).Nodup → (k, v) ∈ d →
      alookup d k = some v := by
  intro d
  induction d with
  | nil => intro k v _ hm; cases hm
  | cons p rest ih =>
      intro k v hn hm
      obtain ⟨k2, v2⟩ := p
      simp only [List.map_cons, List.nodup_cons] at hn
      rcases List.mem_cons.mp hm with he | hm2
      · rw [Prod.mk.injEq] at he
        obtain ⟨he1, he2⟩ := he
        subst he1; subst he2
        simp [alookup]
      · have hne : k ≠ k2 := by
          intro he2
          subst he2
          exact hn.1 (List.mem_map_of_mem Prod.fst hm2)
        simp only [alookup]
        rw [if_neg hne]
        exact ih k v hn.2 hm2

theorem mem_of_alookup_eq_some {α β : Type} [DecidableEq α] :
    ∀ (d : List (α × β)) (k : α) (v : β), alookup d k = some v → (k, v) ∈ d := by
  intro d
  induction d with
  | nil => intro k v h; cases h
  | cons p rest ih =>
      intro k v h
      obtain ⟨k2, v2⟩ := p
      simp only [alookup] at h
      split at h
      · rename_i he
        cases h
        subst he
        exact List.mem_cons_self _ _
      · exact List.mem_cons_of_mem _ (ih k v h)

theorem alookup_iff_mem {α β : Type} [DecidableEq α]
    (d : List (α × β)) (k : α) (v : β) (hn : (d.map Prod.fst).Nodup) :
    alookup d k = some v ↔ (k, v) ∈ d :=
  ⟨mem_of_alookup_eq_some d k v, alookup_eq_some_of_mem d k v hn⟩

theorem clusteringClusters_spec (lb : LogBounds) (cfg : Config) (tbl : Table)
    (method : String) (cs : List ClusterRec) (cols : List String)
    (logs : List LogEvent)
    (h : clusteringClusters lb cfg tbl method = .ok (cs, cols, logs)) :
    ∃ rows oo, clusteringStage1 tbl method = .ok (cols, rows, oo, logs) ∧
      cs = clusterLoop (mkParams method cfg oo cols) 0
        (rows.zip (rows.map (fingerprint lb cfg.Nslices))) [] := by
  unfold clusteringClusters at h
  cases hs : clusteringStage1 tbl method with
  | error e => rw [hs] at h; cases h
  | ok q =>
      obtain ⟨cols2, rows, oo, logs2⟩ := q
      rw [hs] at h
      simp only [Except.ok.injEq, Prod.mk.injEq] at h
      obtain ⟨h1, h2, h3⟩ := h
      subst h2; subst h3
      exact ⟨rows, oo, rfl, h1.symm⟩

theorem clustering_ok_spec (lb : LogBounds) (cfg : Config) (tbl : Table)
    (method : String) (h : runOk lb cfg tbl method = true) :
    ∃ cs cols logs finalRows,
      clusteringClusters lb cfg tbl method = .ok (cs, cols, logs) ∧
      clusteringPost method cols (renameRows cs) = .ok finalRows ∧
      mergedOf lb cfg tbl method = finalRows ∧
      newIndexOf lb cfg tbl method = buildNew cs ∧
      formerOf lb cfg tbl method = buildFormer cs ∧
      logsOf lb cfg tbl method = logs ++ (if tbl.rows.length == cs.length then
        [LogEvent.warnNoCluster] else [LogEvent.infoClustered]) := by
  unfold runOk at h
  cases hc : clusteringClusters lb cfg tbl method with
  | error e =>
      have he : clustering lb cfg tbl method = .error e := by
        unfold clustering
        rw [hc]
      rw [he] at h
      simp [Except.isOk, Except.toBool] at h
  | ok q =>
      obtain ⟨cs, cols, logs⟩ := q
      have he0 : clustering lb cfg tbl method =
          finishClustering tbl method cs cols logs := by
        unfold clustering
        rw [hc]
      cases hp : clusteringPost method cols (renameRows cs) with
      | error e =>
          have he : clustering lb cfg tbl method = .error e := by
            rw [he0]
            unfold finishClustering
            rw [hp]
          rw [he] at h
          simp [Except.isOk, Except.toBool] at h
      | ok finalRows =>
          have he : clustering lb cfg tbl method = .ok
              { mergedRows := finalRows, newIndex := buildNew cs,
                formerIndexes := buildFormer cs,
                logs := logs ++ (if tbl.rows.length == cs.length then
                  [LogEvent.warnNoCluster] else [LogEvent.infoClustered]) } := by
            rw [he0]
            unfold finishClustering
            rw [hp]
          refine ⟨cs, cols, logs, finalRows, rfl, hp, ?_, ?_, ?_, ?_⟩ <;>
            simp [mergedOf, newIndexOf, formerOf, logsOf, he, Except.toOption]

theorem clusteringStage1_spec (tbl : Table) (method : String)
    (cols : List String) (rows : List Row) (oo : Bool) (logs : List LogEvent)
    (h : clusteringStage1 tbl method = .ok (cols, rows, oo, logs)) :
    firstMissing tbl.cols = none ∧ cols = (defaultNunits tbl).cols ∧
      methodDispatch method (defaultNunits tbl).cols (defaultNunits tbl).rows
        ((defaultNunits tbl).rows.all (fun r => decide (r.Nunits = 1)))
        = .ok (rows, oo, logs) := by
  simp only [clusteringStage1] at h
  cases hf : firstMissing tbl.cols with
  | some c => rw [hf] at h; cases h
  | none =>
      rw [hf] at h
      cases hd : methodDispatch method (defaultNunits tbl).cols
          (defaultNunits tbl).rows
          ((defaultNunits tbl).rows.all (fun r => decide (r.Nunits = 1))) with
      | error e => rw [hd] at h; cases h
      | ok q =>
          obtain ⟨rows2, oo2, logs2⟩ := q
          rw [hd] at h
          simp only [Except.ok.injEq, Prod.mk.injEq] at h
          obtain ⟨h1, h2, h3, h4⟩ := h
          subst h2; subst h3; subst h4
          exact ⟨rfl, h1.symm, rfl⟩

theorem methodDispatch_rows_length (method : String) (cols : List String)
    (rows0 : List Row) (oo0 : Bool) (rows : List Row) (oo : Bool)
    (logs : List LogEvent)
    (h : methodDispatch method cols rows0 oo0 = .ok (rows, oo, logs)) :
    rows.length = rows0.length := by
  unfold methodDispatch at h
  split at h
  · simp only [Except.ok.injEq, Prod.mk.injEq] at h
    rw [← h.1]
  · split at h
    · split at h
      · simp only [Except.ok.injEq, Prod.mk.injEq] at h
        rw [← h.1]
      · simp only [Except.ok.injEq, Prod.mk.injEq] at h
        rw [← h.1]
        simp [lpExpand]
    · split at h
      · simp only [Except.ok.injEq, Prod.mk.injEq] at h
        rw [← h.1]
      · cases h

theorem defaultNunits_rows_length (tbl : Table) :
    (defaultNunits tbl).rows.length = tbl.rows.length := by
  unfold defaultNunits
  split
  · rfl
  · simp

theorem defaultNunits_contains (tbl : Table) (c : String)
    (h : tbl.cols.contains c = true) :
    (defaultNunits tbl).cols.contains c = true := by
  unfold defaultNunits
  split
  · exact h
  · rw [contains_true_iff] at h ⊢
    simp [h]

theorem defaultNunits_cap (tbl : Table) :
    capSum (defaultNunits tbl).rows = capSum tbl.rows := by
  unfold defaultNunits
  split
  · rfl
  · simp only [capSum, List.map_map]
    congr 1

theorem methodDispatch_rows_nonlpc (method : String) (cols : List String)
    (rows0 : List Row) (oo0 : Bool) (rows : List Row) (oo : Bool)
    (logs : List LogEvent) (hne : method ≠ "LP clustered")
    (h : methodDispatch method cols rows0 oo0 = .ok (rows, oo, logs)) :
    rows = rows0 ∧ oo = oo0 := by
  unfold methodDispatch at h
  split at h
  · simp only [Except.ok.injEq, Prod.mk.injEq] at h
    exact ⟨h.1.symm, h.2.1.symm⟩
  · rw [if_neg (by simp [beq_eq_false_iff_ne.mpr hne])] at h
    split at h
    · simp only [Except.ok.injEq, Prod.mk.injEq] at h
      exact ⟨h.1.symm, h.2.1.symm⟩
    · cases h

theorem methodDispatch_std_logs (method : String) (cols : List String)
    (rows0 : List Row) (rows : List Row) (oo : Bool) (logs : List LogEvent)
    (hme : method = "Standard" ∨ method = "MILP")
    (h : methodDispatch method cols rows0 false = .ok (rows, oo, logs)) :
    rows = rows0 ∧ oo = false ∧ logs = [LogEvent.warnStandardNunits] := by
  have hbeq : (method == "Standard" || method == "MILP") = true := by
    rcases hme with h2 | h2 <;> simp [h2]
  unfold methodDispatch at h
  rw [if_pos hbeq] at h
  simp only [Bool.false_eq_true, if_false, Except.ok.injEq, Prod.mk.injEq] at h
  exact ⟨h.1.symm, h.2.1.symm, h.2.2.symm⟩

theorem methodDispatch_lpc_cases (cols : List String) (rows0 : List Row)
    (oo0 : Bool) (rows : List Row) (oo : Bool) (logs : List LogEvent)
    (h : methodDispatch "LP clustered" cols rows0 oo0 = .ok (rows, oo, logs)) :
    (oo0 = true ∧ rows = rows0 ∧ oo = true) ∨
    (oo0 = false ∧ rows = lpExpand cols rows0 ∧ oo = true) := by
  unfold methodDispatch at h
  rw [if_neg (by decide), if_pos (by decide)] at h
  cases oo0 with
  | true =>
      rw [if_pos rfl] at h
      simp only [Except.ok.injEq, Prod.mk.injEq] at h
      exact Or.inl ⟨rfl, h.1.symm, h.2.1.symm⟩
  | false =>
      rw [if_neg (by simp)] at h
      simp only [Except.ok.injEq, Prod.mk.injEq] at h
      exact Or.inr ⟨rfl, h.1.symm, h.2.1.symm⟩

theorem clusteringPost_id (method : String) (cols : List String)
    (rows : List Row) (h1 : method ≠ "LP clustered")
    (h2 : method ≠ "Integer clustering") :
    clusteringPost method cols rows = .ok rows := by
  unfold clusteringPost
  rw [if_neg (by simp [beq_eq_false_iff_ne.mpr h1]),
    if_neg (by simp [beq_eq_false_iff_ne.mpr h2])]

theorem capSum_renameRows (cs : List ClusterRec) :
    capSum (renameRows cs) = capSumC cs := by
  simp only [capSum, renameRows, capSumC, List.map_map]
  congr 1

theorem lpRampFix_cap (r : Row) :
    (lpRampFix r).PowerCapacity = r.PowerCapacity := by
  unfold lpRampFix
  split <;> rfl

theorem capSum_map_lpRampFix (rows : List Row) :
    capSum (rows.map lpRampFix) = capSum rows := by
  simp only [capSum, List.map_map]
  exact congrArg List.sum (List.map_congr_left fun r _ => lpRampFix_cap r)

theorem lpExpandRow_cap (cols : List String) (r : Row)
    (h : cols.contains "PowerCapacity" = true) :
    (lpExpandRow cols r).PowerCapacity = r.Nunits * r.PowerCapacity := by
  simp only [lpExpandRow]
  rw [if_pos h]

theorem capSum_lpExpand (cols : List String) (rows0 : List Row)
    (h : cols.contains "PowerCapacity" = true) :
    capSum (lpExpand cols rows0)
      = (rows0.map (fun r => r.Nunits * r.PowerCapacity)).sum := by
  simp only [capSum, lpExpand, List.map_map]
  exact congrArg List.sum (List.map_congr_left fun r _ => lpExpandRow_cap cols r h)

theorem zip_cap_sum (rows : List Row) (fps : List (List ℕ))
    (h : rows.length ≤ fps.length) :
    ((rows.zip fps).map (fun p => p.1.PowerCapacity)).sum = capSum rows := by
  have h1 : (rows.zip fps).map Prod.fst = rows := List.map_fst_zip rows fps h
  have h2 : ((rows.zip fps).map (fun p => p.1.PowerCapacity)).sum
      = (((rows.zip fps).map Prod.fst).map (fun r => r.PowerCapacity)).sum := by
    rw [List.map_map]
    rfl
  rw [h2, h1]
  rfl

theorem origsJoin_singles (l : List (Row × List ℕ)) :
    ∀ i, origsJoin (singles i l) = idxFrom i l.length := by
  induction l with
  | nil => intro i; rfl
  | cons p rest ih =>
      intro i
      obtain ⟨r, f⟩ := p
      simp only [singles, origsJoin_cons, ih (i + 1)]
      rfl

theorem singles_mem (l : List (Row × List ℕ)) :
    ∀ i k, k < l.length → ∃ c ∈ singles i l, c.orig = [i + k] := by
  induction l with
  | nil => intro i k hk; simp at hk
  | cons p rest ih =>
      intro i k hk
      obtain ⟨r, f⟩ := p
      cases k with
      | zero =>
          exact ⟨{ row := r, fp := f, orig := [i] },
            List.mem_cons_self _ _, by simp⟩
      | succ k2 =>
          obtain ⟨c, hc, ho⟩ := ih (i + 1) k2 (by simpa using hk)
          refine ⟨c, List.mem_cons_of_mem _ hc, ?_⟩
          rw [ho]
          congr 1
          omega

theorem renameRows_length (cs : List ClusterRec) :
    (renameRows cs).length = cs.length := by
  simp [renameRows]

theorem zip_map_length (rows : List Row) (f : Row → List ℕ) :
    (rows.zip (rows.map f)).length = rows.length := by
  simp

/-- C6: on every merge of an incoming unit `p` into a representative `m`,
the Standard/MILP branch combines PartLoadMin and StartUpTime as
`min(old·P_old, new·P_add) / (P_old + P_add)` with `P_old` the
representative's capacity before the merge and `P_add` the incoming
capacity, while the LP-clustered branch sets both to exactly 0. -/
theorem C6_minblend_vs_zero (cols : List String) (m p : Row)
    (h1 : cols.contains "PartLoadMin" = true)
    (h2 : cols.contains "StartUpTime" = true) :
    (mergeStandard cols m p).PartLoadMin =
      min (m.PartLoadMin * m.PowerCapacity) (p.PartLoadMin * p.PowerCapacity) /
        (m.PowerCapacity + p.PowerCapacity) ∧
    (mergeStandard cols m p).StartUpTime =
      min (m.StartUpTime * m.PowerCapacity) (p.StartUpTime * p.PowerCapacity) /
        (m.PowerCapacity + p.PowerCapacity) ∧
    (mergeLP cols m p).PartLoadMin = 0 ∧
    (mergeLP cols m p).StartUpTime = 0 := by
  refine ⟨?_, ?_, ?_, ?_⟩
  · simp only [mergeStandard]
    rw [if_pos h1, add_comm p.PowerCapacity m.PowerCapacity]
  · simp only [mergeStandard]
    rw [if_pos h2, add_comm p.PowerCapacity m.PowerCapacity]
  · simp only [mergeLP]
    rw [if_pos h1]
  · simp only [mergeLP]
    rw [if_pos h2]

/-- C9: a table containing the ten spec-listed required columns but lacking a
'Unit' column is fatal for every method and configuration: the code requires
the eleventh column 'Unit' and exits at the first missing required column. -/
theorem C9_missing_unit_fatal (lb : LogBounds) (cfg : Config) (tbl : Table)
    (method : String)
    (h10 : specTenCols.all (fun c => tbl.cols.contains c) = true)
    (hU : tbl.cols.contains "Unit" = false) :
    clustering lb cfg tbl method = .error (.missingColumn "Unit") := by
  have hf : firstMissing tbl.cols = some "Unit" := by
    have hb : (!tbl.cols.contains "Unit") = true := by rw [hU]; rfl
    unfold firstMissing requiredInputs
    exact List.find?_cons_of_pos _ hb
  have hs : clusteringStage1 tbl method = .error (.missingColumn "Unit") := by
    unfold clusteringStage1
    rw [hf]
  have hcc : clusteringClusters lb cfg tbl method =
      .error (.missingColumn "Unit") := by
    unfold clusteringClusters
    rw [hs]
  unfold clustering
  rw [hcc]

/-- C10: the LP-clustered post-finalization assigns
`RampingCost := StartUpCost / PowerCapacity` to every output row whose
RampingCost is exactly 0, with no guard on the divisor: the error-explicit
variant of the assignment fails exactly when such a row has
`PowerCapacity = 0`, and agrees with the unguarded embedding whenever
`PowerCapacity ≠ 0`. -/
theorem C10_lp_rampfix_unguarded (cols : List String) (rows : List Row)
    (r : Row) :
    (cols.contains "RampingCost" = true →
      clusteringPost "LP clustered" cols rows = .ok (rows.map lpRampFix)) ∧
    (lpRampFixChecked r = none ↔ r.RampingCost = 0 ∧ r.PowerCapacity = 0) ∧
    (r.PowerCapacity ≠ 0 → lpRampFixChecked r = some (lpRampFix r)) := by
  refine ⟨?_, ?_, ?_⟩
  · intro h
    unfold clusteringPost
    rw [if_pos (by decide), if_pos h]
  · unfold lpRampFixChecked
    by_cases hrc : r.RampingCost = 0
    · rw [if_pos hrc]
      by_cases hpc : r.PowerCapacity = 0
      · rw [if_pos hpc]
        simp [hrc, hpc]
      · rw [if_neg hpc]
        simp [hrc, hpc]
    · rw [if_neg hrc]
      simp [hrc]
  · intro h
    unfold lpRampFixChecked lpRampFix
    by_cases hrc : r.RampingCost = 0
    · rw [if_pos hrc, if_neg h, if_pos hrc]
    · rw [if_neg hrc, if_neg hrc]

/-- C4: the Integer-clustering post-finalization (the dedented rescale loop)
rounds Nunits and rescales the listed capacity/cost keys only on the
last-iterated merged row; every earlier merged row is returned unchanged. -/
theorem C4_integer_post_last_only (cols : List String) (rows : List Row)
    (l : Row) (h : rows.getLast? = some l) :
    clusteringPost "Integer clustering" cols rows =
      .ok (rows.dropLast ++ [integerTransform cols l]) ∧
    (integerTransform cols l).Nunits = ((roundHalfEven l.Nunits : ℤ) : ℚ) ∧
    ∀ k, k + 1 < rows.length →
      (rows.dropLast ++ [integerTransform cols l]).getD k default
        = rows.getD k default := by
  refine ⟨?_, ?_, ?_⟩
  · unfold clusteringPost
    rw [if_neg (by decide), if_pos (by decide)]
    unfold integerPost
    rw [h]
  · simp [integerTransform]
  · intro k hk
    have hlt : k < rows.dropLast.length := by
      rw [List.length_dropLast]
      omega
    have h1 : (rows.dropLast ++ [integerTransform cols l]).getD k default
        = rows.dropLast.getD k default := by
      simp [List.getD_eq_getElem?_getD, List.getElem?_append_left hlt]
    rw [h1, List.getD_eq_getElem _ _ hlt, List.getElem_dropLast,
      List.getD_eq_getElem]

/-- C7: under LP clustered with a non-uniform Nunits column, the table is
destructively pre-expanded before any merge test: each present capacity-like
column (PowerCapacity, STOCapacity, STOMaxChargingPower, InitialPower) is
multiplied row-wise by Nunits, and Nunits is reset to 1 on every row. -/
theorem C7_lp_preexpansion (tbl : Table)
    (hreq : firstMissing tbl.cols = none)
    (hNu : tbl.cols.contains "Nunits" = true)
    (hno : tbl.rows.all (fun r => decide (r.Nunits = 1)) = false) :
    clusteringStage1 tbl "LP clustered" =
      .ok (tbl.cols, lpExpand tbl.cols tbl.rows, true,
        [LogEvent.warnLPNunits]) ∧
    ∀ r : Row,
      (lpExpandRow tbl.cols r).PowerCapacity = r.Nunits * r.PowerCapacity ∧
      (tbl.cols.contains "STOCapacity" = true →
        (lpExpandRow tbl.cols r).STOCapacity = r.Nunits * r.STOCapacity) ∧
      (tbl.cols.contains "STOMaxChargingPower" = true →
        (lpExpandRow tbl.cols r).STOMaxChargingPower
          = r.Nunits * r.STOMaxChargingPower) ∧
      (tbl.cols.contains "InitialPower" = true →
        (lpExpandRow tbl.cols r).InitialPower = r.Nunits * r.InitialPower) ∧
      (lpExpandRow tbl.cols r).Nunits = 1 := by
  have hPC : tbl.cols.contains "PowerCapacity" = true :=
    firstMissing_none tbl.cols hreq "PowerCapacity" (by decide)
  have hdn : defaultNunits tbl = tbl := by
    unfold defaultNunits
    rw [if_pos hNu]
  constructor
  · simp only [clusteringStage1, hreq, hdn, hno, methodDispatch]
    rw [if_neg (by decide), if_pos (by decide), if_neg (by simp)]
  · intro r
    refine ⟨?_, ?_, ?_, ?_, ?_⟩
    · simp only [lpExpandRow]
      rw [if_pos hPC]
    · intro hc
      simp only [lpExpandRow]
      rw [if_pos hc]
    · intro hc
      simp only [lpExpandRow]
      rw [if_pos hc]
    · intro hc
      simp only [lpExpandRow]
      rw [if_pos hc]
    · simp [lpExpandRow]

/-- C1 amended: under method 'LP clustered' (with OnlyOnes holding, as it
always does after the pre-expansion) a unit merges exactly when some existing
representative has equal Zone, Technology, Fuel and CHPType; the
fingerprint/threshold eligibility test is not consulted for LP-clustered
merges (it governs Standard/MILP merges only). -/
theorem C1_amended_lp_sametype_only (cfg : Config) (cols : List String)
    (i : ℕ) (r : Row) (f : List ℕ) (st : List ClusterRec) :
    (scanMerge (mkParams "LP clustered" cfg true cols) i r f st).isSome
      = st.any (fun c => sameType r c.row) := by
  induction st with
  | nil => rfl
  | cons c rest ih =>
      simp only [scanMerge, List.any_cons]
      rw [if_neg (by simp [mkParams])]
      by_cases hst : sameType r c.row = true
      · rw [if_pos (by simp [mkParams, hst])]
        simp [hst]
      · have hst2 : sameType r c.row = false := by simpa using hst
        rw [if_neg (by simp [mkParams, hst2]), if_neg (by simp [mkParams, hst2])]
        simp only [hst2, Bool.false_or]
        rw [← ih]
        cases hrec : scanMerge (mkParams "LP clustered" cfg true cols) i r f rest <;>
          simp [hrec]

/-- C2 amended: the sum of PowerCapacity over the merged output equals the sum
over the input rows for the methods Standard, MILP, LP and No clustering; for
LP clustered it equals the sum of `Nunits · PowerCapacity` over the input rows
(the pre-expansion total), which coincides with the plain sum when Nunits is
uniformly 1.  Under Integer clustering the sum is not conserved (PowerCapacity
is combined by Nunits-weighted averaging there). -/
theorem C2_amended_capacity_conservation (lb : LogBounds) (cfg : Config)
    (tbl : Table) (method : String) (h : runOk lb cfg tbl method = true) :
    ((method = "Standard" ∨ method = "MILP" ∨ method = "LP" ∨
        method = "No clustering") →
      capSum (mergedOf lb cfg tbl method) = capSum tbl.rows) ∧
    (method = "LP clustered" →
      capSum (mergedOf lb cfg tbl method)
        = ((defaultNunits tbl).rows.map
            (fun r => r.Nunits * r.PowerCapacity)).sum) := by
  obtain ⟨cs, cols, logs, finalRows, hc, hp, hmrg, hni, hfi, hlg⟩ :=
    clustering_ok_spec lb cfg tbl method h
  obtain ⟨rows, oo, hs1, hcs⟩ :=
    clusteringClusters_spec lb cfg tbl method cs cols logs hc
  obtain ⟨hreq, hcols, hd⟩ :=
    clusteringStage1_spec tbl method cols rows oo logs hs1
  have hpcT : tbl.cols.contains "PowerCapacity" = true :=
    firstMissing_none tbl.cols hreq _ (by decide)
  have hpc : cols.contains "PowerCapacity" = true := by
    rw [hcols]
    exact defaultNunits_contains tbl _ hpcT
  have hlen : rows.length ≤ (rows.map (fingerprint lb cfg.Nslices)).length := by
    simp
  have hcapcs : method ≠ "Integer clustering" → capSumC cs = capSum rows := by
    intro hneq
    rw [hcs, clusterLoop_cap (mkParams method cfg oo cols)
      (beq_eq_false_iff_ne.mpr hneq) hpc]
    rw [zip_cap_sum rows _ hlen]
    simp [capSumC]
  constructor
  · intro hme
    have hneqI : method ≠ "Integer clustering" := by
      rcases hme with h2 | h2 | h2 | h2 <;> simp [h2]
    have hneqL : method ≠ "LP clustered" := by
      rcases hme with h2 | h2 | h2 | h2 <;> simp [h2]
    have hfr : finalRows = renameRows cs := by
      rw [clusteringPost_id method cols (renameRows cs) hneqL hneqI] at hp
      exact ((Except.ok.injEq _ _).mp hp).symm
    have hrows : rows = (defaultNunits tbl).rows :=
      (methodDispatch_rows_nonlpc method _ _ _ _ _ _ hneqL hd).1
    rw [hmrg, hfr, capSum_renameRows, hcapcs hneqI, hrows, defaultNunits_cap]
  · intro hme
    subst hme
    have hfr : finalRows = (renameRows cs).map lpRampFix := by
      unfold clusteringPost at hp
      rw [if_pos (by decide)] at hp
      split at hp
      · exact ((Except.ok.injEq _ _).mp hp).symm
      · cases hp
    have hcap2 : capSum (mergedOf lb cfg tbl "LP clustered") = capSum rows := by
      rw [hmrg, hfr, capSum_map_lpRampFix, capSum_renameRows,
        hcapcs (by decide)]
    rw [hcap2]
    rcases methodDispatch_lpc_cases _ _ _ _ _ _ hd with ⟨hoo, hr, _⟩ | ⟨hoo, hr, _⟩
    · subst hr
      have hall : ∀ r ∈ (defaultNunits tbl).rows, r.Nunits = 1 := by
        intro r hr2
        have := (List.all_eq_true.mp hoo) r hr2
        exact of_decide_eq_true this
      rw [capSum]
      exact congrArg List.sum
        (List.map_congr_left fun r hr2 => by rw [hall r hr2, one_mul])
    · subst hr
      rw [capSum_lpExpand _ _ (defaultNunits_contains tbl _ hpcT)]

/-- C5 amended: when Standard or MILP is selected on a table whose Nunits
column is not uniformly 1, the run is not fatal: a warning is logged, no
merging is performed (the output has one row per input row), and each output
row equals the corresponding input row in every field except Unit, which
receives the bookkeeping rename. -/
theorem C5_amended_standard_warn_no_merge (lb : LogBounds) (cfg : Config)
    (tbl : Table) (method : String)
    (hme : method = "Standard" ∨ method = "MILP")
    (hNu : tbl.cols.contains "Nunits" = true)
    (hne : tbl.rows.all (fun r => decide (r.Nunits = 1)) = false)
    (h : runOk lb cfg tbl method = true) :
    LogEvent.warnStandardNunits ∈ logsOf lb cfg tbl method ∧
    (mergedOf lb cfg tbl method).length = tbl.rows.length ∧
    ∀ k, stripUnit ((mergedOf lb cfg tbl method).getD k default)
      = stripUnit (tbl.rows.getD k default) := by
  obtain ⟨cs, cols, logs, finalRows, hc, hp, hmrg, hni, hfi, hlg⟩ :=
    clustering_ok_spec lb cfg tbl method h
  obtain ⟨rows, oo, hs1, hcs⟩ :=
    clusteringClusters_spec lb cfg tbl method cs cols logs hc
  obtain ⟨hreq, hcols, hd⟩ :=
    clusteringStage1_spec tbl method cols rows oo logs hs1
  have hdn : defaultNunits tbl = tbl := by
    unfold defaultNunits
    rw [if_pos hNu]
  rw [hdn, hne] at hd
  obtain ⟨hrows, hoo, hlogs⟩ := methodDispatch_std_logs method _ _ _ _ _ hme hd
  subst hrows
  subst hoo
  have hneqI : method ≠ "Integer clustering" := by
    rcases hme with h2 | h2 <;> simp [h2]
  have hneqL : method ≠ "LP clustered" := by
    rcases hme with h2 | h2 <;> simp [h2]
  have hnone : ∀ i r f st,
      scanMerge (mkParams method cfg false cols) i r f st = none := fun i r f =>
    scanMerge_eq_none _ i r f (Or.inl rfl) (Or.inr rfl) hneqI
  have hsingles : cs = singles 0
      (tbl.rows.zip (tbl.rows.map (fingerprint lb cfg.Nslices))) := by
    rw [hcs, clusterLoop_of_none _ hnone]
    rfl
  have hfr : finalRows = renameRows cs := by
    rw [clusteringPost_id method cols (renameRows cs) hneqL hneqI] at hp
    exact ((Except.ok.injEq _ _).mp hp).symm
  refine ⟨?_, ?_, ?_⟩
  · rw [hlg, hlogs]
    simp
  · rw [hmrg, hfr, renameRows_length, hsingles, singles_length,
      zip_map_length]
  · intro k
    rw [hmrg, hfr, hsingles, renameRows_singles_stripUnit,
      List.map_fst_zip _ _ (by simp)]

/-- C8: method 'No clustering' returns one output row per input row, each equal
to the input row in every field except the bookkeeping Unit rename, and for
every original index i the mapping satisfies
`FormerIndexes[NewIndex[i]] = [i]`. -/
theorem C8_no_clustering_identity (lb : LogBounds) (cfg : Config) (tbl : Table)
    (hNu : tbl.cols.contains "Nunits" = true)
    (h : runOk lb cfg tbl "No clustering" = true)
    (hnd : namesNodup lb cfg tbl "No clustering" = true) :
    (mergedOf lb cfg tbl "No clustering").length = tbl.rows.length ∧
    (∀ k, stripUnit ((mergedOf lb cfg tbl "No clustering").getD k default)
      = stripUnit (tbl.rows.getD k default)) ∧
    ∀ i, i < tbl.rows.length →
      ∃ nm, alookup (newIndexOf lb cfg tbl "No clustering") i = some nm ∧
        alookup (formerOf lb cfg tbl "No clustering") nm = some [i] := by
  obtain ⟨cs, cols, logs, finalRows, hc, hp, hmrg, hni, hfi, hlg⟩ :=
    clustering_ok_spec lb cfg tbl "No clustering" h
  obtain ⟨rows, oo, hs1, hcs⟩ :=
    clusteringClusters_spec lb cfg tbl "No clustering" cs cols logs hc
  obtain ⟨hreq, hcols, hd⟩ :=
    clusteringStage1_spec tbl "No clustering" cols rows oo logs hs1
  have hdn : defaultNunits tbl = tbl := by
    unfold defaultNunits
    rw [if_pos hNu]
  rw [hdn] at hd
  obtain ⟨hrows, hoo⟩ :=
    methodDispatch_rows_nonlpc _ _ _ _ _ _ _ (by decide) hd
  subst hrows
  have hnone : ∀ i r f st,
      scanMerge (mkParams "No clustering" cfg oo cols) i r f st = none :=
    fun i r f => scanMerge_eq_none _ i r f (Or.inr (by simp [mkParams]))
      (Or.inl (by simp [mkParams])) (by simp [mkParams])
  have hsingles : cs = singles 0
      (tbl.rows.zip (tbl.rows.map (fingerprint lb cfg.Nslices))) := by
    rw [hcs, clusterLoop_of_none _ hnone]
    rfl
  have hfr : finalRows = renameRows cs := by
    rw [clusteringPost_id _ cols (renameRows cs) (by decide) (by decide)] at hp
    exact ((Except.ok.injEq _ _).mp hp).symm
  have hndP : (cs.map clusterName).Nodup := by
    have h2 : namesNodup lb cfg tbl "No clustering"
        = decide ((cs.map clusterName).Nodup) := by
      unfold namesNodup
      rw [hc]
    rw [h2] at hnd
    exact of_decide_eq_true hnd
  have hjoin : origsJoin cs = idxFrom 0
      (tbl.rows.zip (tbl.rows.map (fingerprint lb cfg.Nslices))).length := by
    rw [hsingles, origsJoin_singles]
  have hnodJ : (origsJoin cs).Nodup := by
    rw [hjoin]
    exact idxFrom_nodup _ 0
  refine ⟨?_, ?_, ?_⟩
  · rw [hmrg, hfr, renameRows_length, hsingles, singles_length,
      zip_map_length]
  · intro k
    rw [hmrg, hfr, hsingles, renameRows_singles_stripUnit,
      List.map_fst_zip _ _ (by simp)]
  · intro i hi
    have hi2 : i < (tbl.rows.zip
        (tbl.rows.map (fingerprint lb cfg.Nslices))).length := by
      rw [zip_map_length]
      exact hi
    obtain ⟨c, hcmem, horig⟩ := singles_mem _ 0 i hi2
    rw [Nat.zero_add] at horig
    rw [← hsingles] at hcmem
    refine ⟨clusterName c, ?_, ?_⟩
    · rw [hni, buildNew_eq cs hnodJ]
      apply alookup_eq_some_of_mem
      · rw [newPairs_keys]
        exact hnodJ
      · unfold newPairs
        rw [List.mem_flatMap]
        exact ⟨c, hcmem, by rw [horig]; simp⟩
    · rw [hfi, buildFormer_eq cs hndP]
      apply alookup_eq_some_of_mem
      · have h3 : (cs.map (fun c => (clusterName c, c.orig))).map Prod.fst
            = cs.map clusterName := by
          rw [List.map_map]
          rfl
        rw [h3]
        exact hndP
      · rw [← horig]
        exact List.mem_map_of_mem _ hcmem

/-- C3: on every successful run, for every method, provided the derived
cluster names are pairwise distinct (which holds in practice since each name
begins with the bracketed list of absorbed indices): the FormerIndexes lists
are pairwise disjoint, their union is exactly the set of original row indices,
NewIndex has exactly one entry per original index, and `NewIndex[i] = name`
holds exactly when `i` is a member of `FormerIndexes[name]`. -/
theorem C3_mapping_partition (lb : LogBounds) (cfg : Config) (tbl : Table)
    (method : String) (h : runOk lb cfg tbl method = true)
    (hnd : namesNodup lb cfg tbl method = true) :
    (formerOf lb cfg tbl method).Pairwise
      (fun a b => ∀ x, x ∈ a.2 → x ∉ b.2) ∧
    (∀ x, (∃ p ∈ formerOf lb cfg tbl method, x ∈ p.2) ↔
      x < tbl.rows.length) ∧
    ((newIndexOf lb cfg tbl method).map Prod.fst).Nodup ∧
    (∀ i, (∃ s, (i, s) ∈ newIndexOf lb cfg tbl method) ↔
      i < tbl.rows.length) ∧
    (∀ i nm, alookup (newIndexOf lb cfg tbl method) i = some nm ↔
      ∃ l, alookup (formerOf lb cfg tbl method) nm = some l ∧ i ∈ l) := by
  obtain ⟨cs, cols, logs, finalRows, hc, hp, hmrg, hni, hfi, hlg⟩ :=
    clustering_ok_spec lb cfg tbl method h
  obtain ⟨rows, oo, hs1, hcs⟩ :=
    clusteringClusters_spec lb cfg tbl method cs cols logs hc
  obtain ⟨hreq, hcols, hd⟩ :=
    clusteringStage1_spec tbl method cols rows oo logs hs1
  have hndP : (cs.map clusterName).Nodup := by
    have h2 : namesNodup lb cfg tbl method
        = decide ((cs.map clusterName).Nodup) := by
      unfold namesNodup
      rw [hc]
    rw [h2] at hnd
    exact of_decide_eq_true hnd
  have hlenp : (rows.zip (rows.map (fingerprint lb cfg.Nslices))).length
      = tbl.rows.length := by
    rw [zip_map_length,
      methodDispatch_rows_length method _ _ _ _ _ _ hd,
      defaultNunits_rows_length]
  have hperm : List.Perm (origsJoin cs)
      (idxFrom 0 (rows.zip (rows.map (fingerprint lb cfg.Nslices))).length) := by
    rw [hcs]
    have h2 := clusterLoop_origs (mkParams method cfg oo cols)
      (rows.zip (rows.map (fingerprint lb cfg.Nslices))) 0 []
    simpa [origsJoin] using h2
  have hnodJ : (origsJoin cs).Nodup := hperm.nodup_iff.mpr (idxFrom_nodup _ 0)
  have hmemJ : ∀ x, x ∈ origsJoin cs ↔ x < tbl.rows.length := by
    intro x
    rw [hperm.mem_iff, idxFrom_mem, hlenp]
    omega
  have hfi2 : formerOf lb cfg tbl method
      = cs.map (fun c => (clusterName c, c.orig)) := by
    rw [hfi, buildFormer_eq cs hndP]
  have hni2 : newIndexOf lb cfg tbl method = newPairs cs := by
    rw [hni, buildNew_eq cs hnodJ]
  have hkeysN : ((newPairs cs).map Prod.fst).Nodup := by
    rw [newPairs_keys]
    exact hnodJ
  have hkeysF : ((cs.map (fun c => (clusterName c, c.orig))).map
      Prod.fst).Nodup := by
    have h3 : (cs.map (fun c => (clusterName c, c.orig))).map Prod.fst
        = cs.map clusterName := by
      rw [List.map_map]
      rfl
    rw [h3]
    exact hndP
  refine ⟨?_, ?_, ?_, ?_, ?_⟩
  · rw [hfi2]
    have hdisj := (List.nodup_flatten.mp hnodJ).2
    rw [List.pairwise_map] at hdisj ⊢
    exact hdisj.imp (fun hab => by intro x hx; exact hab hx)
  · intro x
    rw [hfi2]
    constructor
    · rintro ⟨p, hpmem, hxp⟩
      rw [List.mem_map] at hpmem
      obtain ⟨c, hcmem, rfl⟩ := hpmem
      refine (hmemJ x).mp ?_
      unfold origsJoin
      rw [List.mem_flatten]
      exact ⟨c.orig, List.mem_map_of_mem _ hcmem, hxp⟩
    · intro hx
      have h2 := (hmemJ x).mpr hx
      unfold origsJoin at h2
      rw [List.mem_flatten] at h2
      obtain ⟨l, hl, hxl⟩ := h2
      rw [List.mem_map] at hl
      obtain ⟨c, hcmem, rfl⟩ := hl
      exact ⟨(clusterName c, c.orig), List.mem_map_of_mem _ hcmem, hxl⟩
  · rw [hni2]
    exact hkeysN
  · intro i
    rw [hni2]
    constructor
    · rintro ⟨s, hmem⟩
      unfold newPairs at hmem
      rw [List.mem_flatMap] at hmem
      obtain ⟨c, hcmem, hmem2⟩ := hmem
      rw [List.mem_map] at hmem2
      obtain ⟨j, hj, hje⟩ := hmem2
      rw [Prod.mk.injEq] at hje
      obtain ⟨hj1, hj2⟩ := hje
      subst hj1
      refine (hmemJ j).mp ?_
      unfold origsJoin
      rw [List.mem_flatten]
      exact ⟨c.orig, List.mem_map_of_mem _ hcmem, hj⟩
    · intro hi
      have hx := (hmemJ i).mpr hi
      unfold origsJoin at hx
      rw [List.mem_flatten] at hx
      obtain ⟨l, hl, hxl⟩ := hx
      rw [List.mem_map] at hl
      obtain ⟨c, hcmem, rfl⟩ := hl
      refine ⟨clusterName c, ?_⟩
      unfold newPairs
      rw [List.mem_flatMap]
      exact ⟨c, hcmem, List.mem_map_of_mem _ hxl⟩
  · intro i nm
    rw [hni2, hfi2, alookup_iff_mem _ _ _ hkeysN]
    constructor
    · intro hmem
      unfold newPairs at hmem
      rw [List.mem_flatMap] at hmem
      obtain ⟨c, hcmem, hm2⟩ := hmem
      rw [List.mem_map] at hm2
      obtain ⟨j, hj, hje⟩ := hm2
      rw [Prod.mk.injEq] at hje
      obtain ⟨hj1, hj2⟩ := hje
      subst hj1
      subst hj2
      refine ⟨c.orig, ?_, hj⟩
      rw [alookup_iff_mem _ _ _ hkeysF]
      exact List.mem_map_of_mem _ hcmem
    · rintro ⟨l, hl, hil⟩
      rw [alookup_iff_mem _ _ _ hkeysF] at hl
      rw [List.mem_map] at hl
      obtain ⟨c, hcmem, hce⟩ := hl
      rw [Prod.mk.injEq] at hce
      obtain ⟨hc1, hc2⟩ := hce
      subst hc1
      subst hc2
      unfold newPairs
      rw [List.mem_flatMap]
      exact ⟨c, hcmem, List.mem_map_of_mem _ hil⟩

section

attribute [local semireducible] Rat.add Rat.sub Rat.mul Rat.inv

/-- C1 counterexample: under 'LP clustered' the two same-type rows of `tblC1`
merge (two input rows, one output row) even though the fingerprint/threshold
eligibility test is false for the incoming unit, refuting the claim that the
eligibility test applies to LP-clustered merges as it does to Standard ones. -/
theorem C1_cex_lp_merges_without_eligibility :
    runOk lb0 cfg0 tblC1 "LP clustered" = true ∧
    tblC1.rows.length = 2 ∧
    (mergedOf lb0 cfg0 tblC1 "LP clustered").length = 1 ∧
    sameType rowHiPmin2 rowHiPmin = true ∧
    eligibility cfg0 (fingerprint lb0 cfg0.Nslices rowHiPmin2)
      (fingerprint lb0 cfg0.Nslices rowHiPmin) rowHiPmin2 = false :=
  ⟨by decide, by decide, by decide, by decide, by decide⟩

/-- C2 counterexample: under 'Integer clustering' the two plants of `tblC2`
(capacities 10 and 20) merge into one row of PowerCapacity 15, so the output
capacity sum 15 differs from the input capacity sum 30. -/
theorem C2_cex_integer_not_conserving :
    runOk lb0 cfg0 tblC2 "Integer clustering" = true ∧
    capSum (mergedOf lb0 cfg0 tblC2 "Integer clustering") = 15 ∧
    capSum tblC2.rows = 30 ∧
    capSum (mergedOf lb0 cfg0 tblC2 "Integer clustering") ≠ capSum tblC2.rows :=
  ⟨by decide, by decide, by decide, by decide⟩

/-- C5 counterexample: for the one-row table with Nunits = 2 under 'Standard',
the run succeeds without merging but the output table does not equal the input
table: the Unit column is renamed to the bookkeeping name. -/
theorem C5_cex_output_not_equal_input :
    runOk lb0 cfg0 tblC5 "Standard" = true ∧
    mergedOf lb0 cfg0 tblC5 "Standard" ≠ tblC5.rows ∧
    (mergedOf lb0 cfg0 tblC5 "Standard").map (fun r => stripUnit r)
      = tblC5.rows.map (fun r => stripUnit r) :=
  ⟨by decide, by decide, by decide⟩

theorem C2_witness :
    runOk lb0 cfg0 tblTwoMerge "Standard" = true ∧
    capSum (mergedOf lb0 cfg0 tblTwoMerge "Standard")
      = capSum tblTwoMerge.rows :=
  ⟨by decide,
   (C2_amended_capacity_conservation lb0 cfg0 tblTwoMerge "Standard"
     (by decide)).1 (Or.inl rfl)⟩

theorem C3_witness :
    runOk lb0 cfg0 tblTwoMerge "Standard" = true ∧
    namesNodup lb0 cfg0 tblTwoMerge "Standard" = true ∧
    (∀ x, (∃ p ∈ formerOf lb0 cfg0 tblTwoMerge "Standard", x ∈ p.2) ↔
      x < tblTwoMerge.rows.length) ∧
    ((newIndexOf lb0 cfg0 tblTwoMerge "Standard").map Prod.fst).Nodup ∧
    (∀ i nm, alookup (newIndexOf lb0 cfg0 tblTwoMerge "Standard") i = some nm ↔
      ∃ l, alookup (formerOf lb0 cfg0 tblTwoMerge "Standard") nm = some l ∧
        i ∈ l) :=
  ⟨by decide, by decide,
   (C3_mapping_partition lb0 cfg0 tblTwoMerge "Standard" (by decide)
     (by decide)).2.1,
   (C3_mapping_partition lb0 cfg0 tblTwoMerge "Standard" (by decide)
     (by decide)).2.2.1,
   (C3_mapping_partition lb0 cfg0 tblTwoMerge "Standard" (by decide)
     (by decide)).2.2.2.2⟩

theorem C4_witness :
    rowsC4.getLast? = some rowC4last ∧
    (clusteringPost "Integer clustering" fullCols rowsC4 =
        .ok (rowsC4.dropLast ++ [integerTransform fullCols rowC4last]) ∧
      (integerTransform fullCols rowC4last).Nunits
        = ((roundHalfEven rowC4last.Nunits : ℤ) : ℚ) ∧
      ∀ k, k + 1 < rowsC4.length →
        (rowsC4.dropLast ++ [integerTransform fullCols rowC4last]).getD k default
          = rowsC4.getD k default) :=
  ⟨rfl, C4_integer_post_last_only fullCols rowsC4 rowC4last rfl⟩

theorem C5_witness :
    tblC5.cols.contains "Nunits" = true ∧
    tblC5.rows.all (fun r => decide (r.Nunits = 1)) = false ∧
    runOk lb0 cfg0 tblC5 "Standard" = true ∧
    LogEvent.warnStandardNunits ∈ logsOf lb0 cfg0 tblC5 "Standard" ∧
    (mergedOf lb0 cfg0 tblC5 "Standard").length = tblC5.rows.length :=
  ⟨by decide, by decide, by decide,
   (C5_amended_standard_warn_no_merge lb0 cfg0 tblC5 "Standard" (Or.inl rfl)
     (by decide) (by decide) (by decide)).1,
   (C5_amended_standard_warn_no_merge lb0 cfg0 tblC5 "Standard" (Or.inl rfl)
     (by decide) (by decide) (by decide)).2.1⟩

theorem C6_witness :
    fullCols.contains "PartLoadMin" = true ∧
    fullCols.contains "StartUpTime" = true ∧
    (mergeStandard fullCols baseRow rowHiPmin).PartLoadMin =
      min (baseRow.PartLoadMin * baseRow.PowerCapacity)
        (rowHiPmin.PartLoadMin * rowHiPmin.PowerCapacity) /
        (baseRow.PowerCapacity + rowHiPmin.PowerCapacity) ∧
    (mergeLP fullCols baseRow rowHiPmin).PartLoadMin = 0 :=
  ⟨by decide, by decide,
   (C6_minblend_vs_zero fullCols baseRow rowHiPmin (by decide) (by decide)).1,
   (C6_minblend_vs_zero fullCols baseRow rowHiPmin (by decide)
     (by decide)).2.2.1⟩

theorem C7_witness :
    firstMissing tblC7.cols = none ∧
    tblC7.cols.contains "Nunits" = true ∧
    tblC7.rows.all (fun r => decide (r.Nunits = 1)) = false ∧
    clusteringStage1 tblC7 "LP clustered" =
      .ok (tblC7.cols, lpExpand tblC7.cols tblC7.rows, true,
        [LogEvent.warnLPNunits]) ∧
    (lpExpandRow tblC7.cols rowC7).PowerCapacity = 30 ∧
    (lpExpandRow tblC7.cols rowC7).Nunits = 1 :=
  ⟨by decide, by decide, by decide,
   (C7_lp_preexpansion tblC7 (by decide) (by decide) (by decide)).1,
   by decide, by decide⟩

theorem C8_witness :
    tblC8.cols.contains "Nunits" = true ∧
    runOk lb0 cfg0 tblC8 "No clustering" = true ∧
    namesNodup lb0 cfg0 tblC8 "No clustering" = true ∧
    (mergedOf lb0 cfg0 tblC8 "No clustering").length = tblC8.rows.length ∧
    (∀ i, i < tblC8.rows.length →
      ∃ nm, alookup (newIndexOf lb0 cfg0 tblC8 "No clustering") i = some nm ∧
        alookup (formerOf lb0 cfg0 tblC8 "No clustering") nm = some [i]) :=
  ⟨by decide, by decide, by decide,
   (C8_no_clustering_identity lb0 cfg0 tblC8 (by decide) (by decide)
     (by decide)).1,
   (C8_no_clustering_identity lb0 cfg0 tblC8 (by decide) (by decide)
     (by decide)).2.2⟩

theorem C9_witness :
    specTenCols.all (fun c => tblC9.cols.contains c) = true ∧
    tblC9.cols.contains "Unit" = false ∧
    clustering lb0 cfg0 tblC9 "Standard" = .error (.missingColumn "Unit") :=
  ⟨by decide, by decide,
   C9_missing_unit_fatal lb0 cfg0 tblC9 "Standard" (by decide) (by decide)⟩

theorem C10_witness :
    fullCols.contains "RampingCost" = true ∧
    baseRow.PowerCapacity ≠ 0 ∧
    clusteringPost "LP clustered" fullCols [baseRow]
      = .ok ([baseRow].map lpRampFix) ∧
    lpRampFixChecked baseRow = some (lpRampFix baseRow) :=
  ⟨by decide, by decide,
   (C10_lp_rampfix_unguarded fullCols [baseRow] baseRow).1 (by decide),
   (C10_lp_rampfix_unguarded fullCols [baseRow] baseRow).2.2 (by decide)⟩

end

end DispaSet
